import Mathlib

/-!
Shallow embedding of the endlessh Prometheus exporter
(src/endlessh-exporter-geoip.py) and verification of its specification.

Python dictionaries are modelled as association lists with Python's
semantics (insertion order preserved, overwriting a key keeps its
position, a new key is appended at the end).  Python sets of small
values are modelled as Lean Finsets or membership in lists.  Floats
(trap durations, latitudes, longitudes) are modelled as rationals;
UTC timestamps as natural numbers (epoch seconds).
-/

namespace Endlessh

/-! ### Python dict primitives -/

/-- Lookup in a Python-style dict modelled as an association list
(first binding wins; keys are unique in every dict the program builds). -/
def dictGet? {α : Type} (m : List (String × α)) (k : String) : Option α :=
  (m.find? (fun p => p.1 = k)).map (fun p => p.2)

/-- Python dict assignment: overwriting an existing key keeps its position,
a fresh key is appended at the end. -/
def dictInsert {α : Type} (m : List (String × α)) (k : String) (v : α) :
    List (String × α) :=
  if m.any (fun p => p.1 = k) then
    m.map (fun p => if p.1 = k then (k, v) else p)
  else m ++ [(k, v)]

/-- Keys of a dict, in insertion order. -/
def dictKeys {α : Type} (m : List (String × α)) : List String :=
  m.map (fun p => p.1)

/-! ### Data model -/

/-- Cached geolocation result, the values of the `ip_locations` dict
(lines 87-93 of the source). -/
structure GeoLocation where
  country : String
  country_code : String
  city : String
  lat : Rat
  lon : Rat
deriving DecidableEq, Repr

/-- Parsed body of a successful HTTP response of the ip-api.com lookup
(the JSON fields read at lines 86-92); absent JSON keys are `none`. -/
structure ApiResponse where
  status : String
  country : Option String
  countryCode : Option String
  city : Option String
  lat : Option Rat
  lon : Option Rat
deriving DecidableEq, Repr

/-- One connection record, the values of the `individual_connections` /
`hall_of_fame` dicts (lines 185-195 of the source). -/
structure Conn where
  ip : String
  port : Nat
  fd : Nat
  country : String
  city : String
  country_code : String
  started : Nat
  duration : Rat
  status : String
deriving DecidableEq, Repr

/-- Capture groups of a matching ACCEPT line (`accept_pattern`, line 136):
group 1 is the origin address, group 2 the origin port, group 3 the file
descriptor, groups 4/5 the connection counts; `ts` is group 1 of
`timestamp_pattern` when the line carries a parseable timestamp. -/
structure OpenEvent where
  ip : String
  port : Nat
  fd : Nat
  nActive : Nat
  nTotal : Nat
  ts : Option Nat
deriving DecidableEq, Repr

/-- Capture groups of a matching CLOSE line (`close_pattern`, line 137):
group 1 the origin address, group 2 the origin port, group 3 the file
descriptor, group 4 the reported trap duration. -/
structure CloseEvent where
  ip : String
  port : Nat
  fd : Nat
  time : Rat
deriving DecidableEq, Repr

/-- Events extracted from one journalctl text block, in line order. -/
structure Window where
  opens : List OpenEvent
  closes : List CloseEvent
deriving Repr

/-- State of the total-connections counter: the lifetime count and the
`seen_log_entries` de-duplication set. -/
structure CounterState where
  total : Nat
  seen : Finset (Nat × Nat)
deriving DecidableEq

/-- Process-wide mutable state surviving between reconciliation passes. -/
structure PassState where
  hall_of_fame : List (String × Conn)
  ip_locations : List (String × GeoLocation)
  counter : CounterState

/-! ### get_geoip_data (source lines 75-106) -/

/-- Fallback location returned when the lookup fails (lines 100-106). -/
def unknownGeo : GeoLocation :=
  { country := "Unknown", country_code := "XX", city := "Unknown",
    lat := 0, lon := 0 }

/-- Translation of get_geoip_data (lines 75-106).  The external HTTP call is
modelled by the `resp` argument: `none` is a raised exception (timeout,
network or JSON error), `some data` a decoded JSON body.  Returns the
location and the updated `ip_locations` cache. -/
def get_geoip_data (cache : List (String × GeoLocation)) (ip : String)
    (resp : Option ApiResponse) : GeoLocation × List (String × GeoLocation) :=
  match dictGet? cache ip with
  | some g => (g, cache)
  | none =>
    match resp with
    | some data =>
      if data.status = "success" then
        let result : GeoLocation :=
          { country := data.country.getD "Unknown",
            country_code := data.countryCode.getD "XX",
            city := data.city.getD "Unknown",
            lat := data.lat.getD 0,
            lon := data.lon.getD 0 }
        (result, dictInsert cache ip result)
      else (unknownGeo, cache)
    | none => (unknownGeo, cache)

/-- Outcome of the external lookup alone: the location that a successful
call would cache, `none` on exception or non-success status. -/
def apiResult (resp : Option ApiResponse) : Option GeoLocation :=
  match resp with
  | some data =>
    if data.status = "success" then
      some { country := data.country.getD "Unknown",
             country_code := data.countryCode.getD "XX",
             city := data.city.getD "Unknown",
             lat := data.lat.getD 0,
             lon := data.lon.getD 0 }
    else none
  | none => none

/-! ### parse_endlessh_logs (source lines 108-291) -/

/-- Unique connection id, line 161: the f-string "ip:port". -/
def connId (ip : String) (port : Nat) : String :=
  ip ++ ":" ++ toString port

/-- Python str.replace of every double-quote character by the empty string
(used on label values at lines 189-190). -/
def stripQuotes (s : String) : String :=
  String.mk (s.data.filter (fun c => c ≠ '"'))

/-- Guarded cache population of lines 173-174: call get_geoip_data only
when the address is not cached (the returned location is discarded there,
only the cache side effect is kept). -/
def geoStep (api : String → Option ApiResponse)
    (cache : List (String × GeoLocation)) (ip : String) :
    List (String × GeoLocation) :=
  if (dictGet? cache ip).isSome then cache
  else (get_geoip_data cache ip (api ip)).2

/-- Accumulator of the ACCEPT pass: the working set being built, the
per-address connection counts, and the geolocation cache. -/
abbrev OpenAcc : Type :=
  List (String × Conn) × List (String × Nat) × List (String × GeoLocation)

/-- One iteration of the ACCEPT loop (lines 152-197). -/
def openStep (now : Nat) (closed_ports : List Nat)
    (api : String → Option ApiResponse) (acc : OpenAcc) (e : OpenEvent) :
    OpenAcc :=
  let conns := acc.1
  let perIp := acc.2.1
  let cache := acc.2.2
  -- lines 163-170: timestamp parse, falling back to now
  let started_time := e.ts.getD now
  -- lines 172-176: cached lookup then read-back with defaults
  let cache1 := geoStep api cache e.ip
  let geo := dictGet? cache1 e.ip
  -- lines 178-182: status from the closed-ports index
  let status := if e.port ∈ closed_ports then "released" else "trapped"
  -- lines 184-195: build and store the record
  let conn : Conn :=
    { ip := e.ip, port := e.port, fd := e.fd,
      country := stripQuotes ((geo.map (fun g => g.country)).getD "Unknown"),
      city := stripQuotes ((geo.map (fun g => g.city)).getD "Unknown"),
      country_code := (geo.map (fun g => g.country_code)).getD "XX",
      started := started_time, duration := 0, status := status }
  -- line 197: defaultdict increment
  (dictInsert conns (connId e.ip e.port) conn,
   dictInsert perIp e.ip ((dictGet? perIp e.ip).getD 0 + 1),
   cache1)

/-- One iteration of the CLOSE loop (lines 200-216): when the key exists in
the working set, set its duration and copy it into the hall of fame. -/
def closeStep (acc : List (String × Conn) × List (String × Conn))
    (c : CloseEvent) : List (String × Conn) × List (String × Conn) :=
  let cid := connId c.ip c.port
  match dictGet? acc.1 cid with
  | some conn =>
    let conn1 := { conn with duration := c.time }
    (dictInsert acc.1 cid conn1, dictInsert acc.2 cid conn1)
  | none => acc

/-- Live duration recomputation of lines 221-223, applied to trapped
records (the Python loop mutates the shared record objects, so the update
is visible in the working set as well). -/
def recomputeConn (now : Nat) (c : Conn) : Conn :=
  if c.status = "trapped" then
    { c with duration := (now : Rat) - (c.started : Rat) }
  else c

/-- Hall-of-fame deduplication (lines 225-234): keep, per origin address,
the entry with the strictly greatest duration (first wins on ties),
in first-seen origin order. -/
def dedupHall (hall : List (String × Conn)) : List (String × Conn) :=
  let best := hall.foldl
    (fun acc p =>
      match dictGet? acc p.2.ip with
      | some q =>
        if p.2.duration > q.2.duration then dictInsert acc p.2.ip p else acc
      | none => dictInsert acc p.2.ip p)
    ([] : List (String × (String × Conn)))
  best.map (fun p => p.2)

/-- Comparator of line 240: sorted(key=duration, reverse=True) keeps a
before b when b's duration is at most a's. -/
def hallLe (a b : String × Conn) : Bool :=
  decide (b.2.duration ≤ a.2.duration)

/-- Stable descending sort by duration (line 240; Python's sorted with
reverse=True is stable). -/
def sortHallDesc (hall : List (String × Conn)) : List (String × Conn) :=
  hall.mergeSort hallLe

/-- Hall-of-fame truncation (lines 236-241): keep the top 100 by duration
when above capacity. -/
def trimHall (hall : List (String × Conn)) : List (String × Conn) :=
  if hall.length > 100 then (sortHallDesc hall).take 100 else hall

/-- One iteration of the 5-minute counter loop (lines 272-284).  The
source computes the de-duplication id from the timestamp capture and
from `match.group(2)` - which is the PORT capture of accept_pattern,
although the source names it fd and its comment reads "(timestamp + FD)".
Lines whose timestamp does not match are not counted at all. -/
def countStep (st : CounterState) (e : OpenEvent) : CounterState :=
  match e.ts with
  | some t =>
    let log_id := (t, e.port)
    if log_id ∈ st.seen then st
    else { total := st.total + 1, seen := insert log_id st.seen }
  | none => st

/-- Counter update of one pass (lines 272-291): count the unseen open
events of the short window, then clear the recency set when it exceeds
1000 entries. -/
def processShortWindow (st : CounterState) (evs : List OpenEvent) :
    CounterState :=
  let st1 := evs.foldl countStep st
  if st1.seen.card > 1000 then { total := st1.total, seen := ∅ } else st1

/-- Derived views produced by one reconciliation pass, used by
generate_metrics. -/
structure PassOutput where
  working : List (String × Conn)
  trapped : List (String × Conn)
  display : List (String × Conn)
  all_durations : List Rat
  max_trap_duration : Rat
  avg_trap_duration : Rat
  active_connections : Nat
  connections_per_ip : List (String × Nat)

/-- Translation of parse_endlessh_logs (lines 108-291).  The journalctl
outputs are given as the extracted event windows; `api` is the external
geolocation service (deterministic within one pass), `now` the current
UTC time.  Returns the updated process state and the derived views. -/
def parse_endlessh_logs (api : String → Option ApiResponse) (now : Nat)
    (st : PassState) (w : Window) (shortOpens : List OpenEvent) :
    PassState × PassOutput :=
  -- lines 143-148: closed-ports index (a set of ports only)
  let closed_ports := w.closes.map (fun c => c.port)
  -- lines 150-197: ACCEPT pass
  let acc := w.opens.foldl (openStep now closed_ports api)
    (([], [], st.ip_locations) : OpenAcc)
  let conns0 := acc.1
  let perIp := acc.2.1
  let cache1 := acc.2.2
  -- lines 199-216: CLOSE pass
  let cf := w.closes.foldl closeStep (conns0, st.hall_of_fame)
  let conns1 := cf.1
  let hall1 := cf.2
  -- lines 219-223: trapped filter and live duration recomputation
  let conns2 := conns1.map (fun p => (p.1, recomputeConn now p.2))
  let trapped := conns2.filter (fun p => p.2.status = "trapped")
  -- lines 225-241: hall-of-fame dedup and truncation
  let hall2 := trimHall (dedupHall hall1)
  -- lines 247-248: display union (hall entries overwrite trapped ones)
  let display := hall2.foldl (fun acc2 p => dictInsert acc2 p.1 p.2) trapped
  -- lines 251-257: global stats over displayed connections
  let durs := display.map (fun p => p.2.duration)
  let maxd := match durs with
    | [] => 0
    | d :: rest => rest.foldl max d
  let avgd := match durs with
    | [] => 0
    | _ => durs.sum / (durs.length : Rat)
  -- line 266: active connections among displayed ones
  let act := (display.filter (fun p => p.2.status = "trapped")).length
  -- lines 272-291: total-connections counter over the short window
  let counter1 := processShortWindow st.counter shortOpens
  ({ hall_of_fame := hall2, ip_locations := cache1, counter := counter1 },
   { working := conns2, trapped := trapped, display := display,
     all_durations := durs, max_trap_duration := maxd,
     avg_trap_duration := avgd, active_connections := act,
     connections_per_ip := perIp })

/-! ### generate_metrics aggregation (source lines 392-404) -/

/-- Distinct-origin gauge of line 393: the size of the per-address dict. -/
def uniqueIps (perIp : List (String × Nat)) : Nat :=
  perIp.length

/-- Country of an address as read by generate_metrics (lines 398-399). -/
def countryOf (cache : List (String × GeoLocation)) (ip : String) : String :=
  ((dictGet? cache ip).map (fun g => g.country)).getD "Unknown"

/-- Per-country rollup of lines 396-400: a defaultdict summing the
per-address counts over the keys of connections_per_ip. -/
def connectionsPerCountry (cache : List (String × GeoLocation))
    (perIp : List (String × Nat)) : List (String × Nat) :=
  perIp.foldl
    (fun acc p =>
      let ctry := countryOf cache p.1
      dictInsert acc ctry ((dictGet? acc ctry).getD 0 + p.2))
    []

/-! ### Hall-of-fame persistence (source lines 32-73) -/

/-- Connection record as serialized to JSON: the start timestamp is an ISO
string, the remaining fields are unchanged (lines 60-66). -/
structure SavedConn where
  ip : String
  port : Nat
  fd : Nat
  country : String
  city : String
  country_code : String
  started : String
  duration : Rat
  status : String
deriving DecidableEq, Repr

/-- In-memory record rebuilt from a saved one with its parsed timestamp
(lines 41-44). -/
def connOfSaved (s : SavedConn) (t : Nat) : Conn :=
  { ip := s.ip, port := s.port, fd := s.fd, country := s.country,
    city := s.city, country_code := s.country_code, started := t,
    duration := s.duration, status := s.status }

/-- Translation of load_hall_of_fame (lines 32-52).  The file system is
modelled by `file`: `none` when the file does not exist, `some (.error ())`
when json.load raises, `some (.ok raw)` for a decoded JSON object.
`parseIso` models datetime.fromisoformat, `none` being a raised
ValueError; any failing entry aborts the conversion loop and the except
branch leaves the hall empty. -/
def load_hall_of_fame (parseIso : String → Option Nat)
    (file : Option (Except Unit (List (String × SavedConn)))) :
    List (String × Conn) :=
  match file with
  | none => []
  | some (Except.error _) => []
  | some (Except.ok raw) =>
    match raw.mapM (fun p => (parseIso p.2.started).map
      (fun t => (p.1, connOfSaved p.2 t))) with
    | some conns => conns
    | none => []

/-- Serialization loop of save_hall_of_fame (lines 61-66); `iso` models
datetime.isoformat. -/
def savedOfConn (iso : Nat → String) (c : Conn) : SavedConn :=
  { ip := c.ip, port := c.port, fd := c.fd, country := c.country,
    city := c.city, country_code := c.country_code,
    started := iso c.started, duration := c.duration, status := c.status }

/-- Translation of save_hall_of_fame (lines 54-73).  `writeOk` models
whether the file write succeeds; on failure the exception is caught and
logged (line 72-73).  The function never assigns the hall_of_fame global:
the second component is the in-memory hall after the call. -/
def save_hall_of_fame (iso : Nat → String) (hall : List (String × Conn))
    (writeOk : Bool) :
    Option (List (String × SavedConn)) × List (String × Conn) :=
  let data_to_save := hall.map (fun p => (p.1, savedOfConn iso p.2))
  (if writeOk then some data_to_save else none, hall)

/-! ### Counter Tracker lemmas -/

/-- De-duplication ids of the countable events of a window. -/
def logIds (evs : List OpenEvent) : List (Nat × Nat) :=
  evs.filterMap (fun e => e.ts.map (fun t => (t, e.port)))

theorem countStep_fold_spec (evs : List OpenEvent) :
    ∀ st : CounterState,
      (evs.foldl countStep st).seen = st.seen ∪ (logIds evs).toFinset ∧
      (evs.foldl countStep st).total =
        st.total + ((logIds evs).toFinset \ st.seen).card := by
  induction evs with
  | nil => intro st; simp [logIds]
  | cons e t ih =>
    intro st
    rw [List.foldl_cons]
    cases hts : e.ts with
    | none =>
      have hstep : countStep st e = st := by simp [countStep, hts]
      have hids : logIds (e :: t) = logIds t := by simp [logIds, hts]
      rw [hstep, hids]
      exact ih st
    | some tsv =>
      have hids : logIds (e :: t) = (tsv, e.port) :: logIds t := by
        simp [logIds, hts]
      by_cases hmem : (tsv, e.port) ∈ st.seen
      · have hstep : countStep st e = st := by simp [countStep, hts, hmem]
        rw [hstep, hids]
        obtain ⟨ihs, iht⟩ := ih st
        constructor
        · rw [ihs]
          ext x
          simp only [Finset.mem_union, List.toFinset_cons, Finset.mem_insert,
            List.mem_toFinset]
          constructor
          · rintro (h | h)
            · exact Or.inl h
            · exact Or.inr (Or.inr h)
          · rintro (h | h | h)
            · exact Or.inl h
            · exact Or.inl (h ▸ hmem)
            · exact Or.inr h
        · rw [iht, List.toFinset_cons, Finset.insert_sdiff_of_mem _ hmem]
      · have hstep : countStep st e =
            { total := st.total + 1, seen := insert (tsv, e.port) st.seen } := by
          simp [countStep, hts, hmem]
        rw [hstep, hids]
        obtain ⟨ihs, iht⟩ :=
          ih { total := st.total + 1, seen := insert (tsv, e.port) st.seen }
        dsimp only at ihs iht
        constructor
        · rw [ihs]
          simp only [List.toFinset_cons]
          ext x
          simp only [Finset.mem_union, Finset.mem_insert, List.mem_toFinset]
          tauto
        · rw [iht]
          simp only [List.toFinset_cons]
          have key : ((logIds t).toFinset \ insert (tsv, e.port) st.seen).card + 1 =
              ((insert (tsv, e.port) (logIds t).toFinset) \ st.seen).card := by
            rw [Finset.sdiff_insert]
            rw [Finset.insert_sdiff_of_not_mem _ (by exact hmem)]
            by_cases hin : (tsv, e.port) ∈ (logIds t).toFinset \ st.seen
            · rw [Finset.card_erase_of_mem hin,
                Finset.insert_eq_self.mpr hin]
              have : 0 < ((logIds t).toFinset \ st.seen).card :=
                Finset.card_pos.mpr ⟨_, hin⟩
              omega
            · rw [Finset.erase_eq_of_not_mem hin,
                Finset.card_insert_of_not_mem hin]
          omega

theorem processShortWindow_total (st : CounterState) (evs : List OpenEvent) :
    (processShortWindow st evs).total =
      st.total + ((logIds evs).toFinset \ st.seen).card := by
  unfold processShortWindow
  have h := (countStep_fold_spec evs st).2
  dsimp only
  split
  · exact h
  · exact h

theorem processShortWindow_total_mono (st : CounterState)
    (evs : List OpenEvent) : st.total ≤ (processShortWindow st evs).total := by
  rw [processShortWindow_total]
  omega

theorem logIds_append (evs1 evs2 : List OpenEvent) :
    logIds (evs1 ++ evs2) = logIds evs1 ++ logIds evs2 := by
  simp [logIds]

theorem processShortWindow_no_clear_eq (st : CounterState)
    (evs1 evs2 : List OpenEvent)
    (h2 : ((evs1 ++ evs2).foldl countStep st).seen.card ≤ 1000) :
    (processShortWindow (processShortWindow st evs1) evs2).total =
      st.total + (((logIds (evs1 ++ evs2)).toFinset) \ st.seen).card := by
  have hsub : (evs1.foldl countStep st).seen ⊆
      ((evs1 ++ evs2).foldl countStep st).seen := by
    rw [(countStep_fold_spec evs1 st).1, (countStep_fold_spec (evs1 ++ evs2) st).1,
      logIds_append]
    intro x hx
    simp only [Finset.mem_union, List.mem_toFinset, List.mem_append] at hx ⊢
    tauto
  have h1 : (evs1.foldl countStep st).seen.card ≤ 1000 :=
    le_trans (Finset.card_le_card hsub) h2
  have hp1 : processShortWindow st evs1 = evs1.foldl countStep st := by
    unfold processShortWindow
    rw [if_neg (by omega)]
  rw [hp1, processShortWindow_total, (countStep_fold_spec evs1 st).1,
    (countStep_fold_spec evs1 st).2, logIds_append]
  have hcard : ((logIds evs2).toFinset \ (st.seen ∪ (logIds evs1).toFinset)).card +
      ((logIds evs1).toFinset \ st.seen).card =
      (((logIds evs1 ++ logIds evs2).toFinset) \ st.seen).card := by
    rw [← Finset.card_union_of_disjoint]
    · congr 1
      ext x
      simp only [Finset.mem_union, Finset.mem_sdiff, List.mem_toFinset,
        List.mem_append]
      tauto
    · rw [Finset.disjoint_left]
      intro x hx1 hx2
      simp only [Finset.mem_sdiff, Finset.mem_union] at hx1 hx2
      tauto
  omega

def dupEvent (i : Nat) : OpenEvent :=
  { ip := "198.51.100.7", port := 40000 + i, fd := 3, nActive := 1,
    nTotal := 1, ts := some 100 }

def scrapeA : List OpenEvent :=
  (List.range 1001).map dupEvent

theorem logIds_map_dupEvent (l : List Nat) :
    logIds (l.map dupEvent) = l.map (fun i => (100, 40000 + i)) := by
  unfold logIds
  rw [List.filterMap_map]
  have he : ((fun e : OpenEvent => e.ts.map (fun t => (t, e.port))) ∘ dupEvent) =
      (fun i => some ((100 : Nat), 40000 + i)) := rfl
  rw [he]
  exact List.filterMap_eq_map (fun i => ((100 : Nat), 40000 + i)) ▸ rfl

theorem processShortWindow_spec (tot : Nat) (seen : Finset (Nat × Nat))
    (evs : List OpenEvent) :
    processShortWindow { total := tot, seen := seen } evs =
      if (seen ∪ (logIds evs).toFinset).card > 1000 then
        { total := tot + ((logIds evs).toFinset \ seen).card, seen := ∅ }
      else
        { total := tot + ((logIds evs).toFinset \ seen).card,
          seen := seen ∪ (logIds evs).toFinset } := by
  have hfold : evs.foldl countStep { total := tot, seen := seen } =
      { total := tot + ((logIds evs).toFinset \ seen).card,
        seen := seen ∪ (logIds evs).toFinset } := by
    have hs := (countStep_fold_spec evs { total := tot, seen := seen }).1
    have ht := (countStep_fold_spec evs { total := tot, seen := seen }).2
    cases hx : evs.foldl countStep { total := tot, seen := seen } with
    | mk a b =>
      rw [hx] at hs ht
      dsimp at hs ht
      rw [hs, ht]
  unfold processShortWindow
  dsimp only
  rw [hfold]

theorem scrapeA_process_general (tot : Nat) :
    processShortWindow { total := tot, seen := ∅ } scrapeA =
      { total := tot + 1001, seen := ∅ } := by
  have hids : logIds scrapeA =
      (List.range 1001).map (fun i => (100, 40000 + i)) :=
    logIds_map_dupEvent (List.range 1001)
  have hnodup : (logIds scrapeA).Nodup := by
    rw [hids]
    refine List.Nodup.map ?_ (List.nodup_range 1001)
    intro a b hab
    have := congrArg Prod.snd hab
    simp at this
    omega
  have hcard : (logIds scrapeA).toFinset.card = 1001 := by
    rw [List.toFinset_card_of_nodup hnodup, hids,
      List.length_map, List.length_range]
  have hspec := processShortWindow_spec tot ∅ scrapeA
  rw [Finset.empty_union, Finset.sdiff_empty, hcard] at hspec
  rw [if_pos (by norm_num)] at hspec
  exact hspec

theorem scrapeA_process :
    processShortWindow { total := 0, seen := ∅ } scrapeA =
      { total := 1001, seen := ∅ } := by
  rw [scrapeA_process_general 0]

/-! ### Association-list dictionary lemmas -/

variable {α : Type}

theorem dictGet?_nil (k : String) :
    dictGet? ([] : List (String × α)) k = none := rfl

theorem dictGet?_cons (p : String × α) (t : List (String × α)) (k : String) :
    dictGet? (p :: t) k = if p.1 = k then some p.2 else dictGet? t k := by
  simp only [dictGet?, List.find?]
  by_cases h : p.1 = k
  · simp [h]
  · simp [h]

theorem dictKeys_nil : dictKeys ([] : List (String × α)) = [] := rfl

theorem dictKeys_cons (p : String × α) (t : List (String × α)) :
    dictKeys (p :: t) = p.1 :: dictKeys t := rfl

theorem dictGet?_isSome_iff (m : List (String × α)) (k : String) :
    (dictGet? m k).isSome = true ↔ k ∈ dictKeys m := by
  induction m with
  | nil => simp [dictGet?_nil, dictKeys_nil]
  | cons p t ih =>
    rw [dictGet?_cons, dictKeys_cons]
    by_cases hp : p.1 = k
    · simp [hp]
    · simp only [if_neg hp, List.mem_cons, ih]
      constructor
      · exact Or.inr
      · rintro (h | h)
        · exact absurd h.symm hp
        · exact h

theorem dictGet?_eq_none_iff (m : List (String × α)) (k : String) :
    dictGet? m k = none ↔ k ∉ dictKeys m := by
  rw [← dictGet?_isSome_iff]
  cases dictGet? m k <;> simp

theorem dictAny_iff (m : List (String × α)) (k : String) :
    m.any (fun p => p.1 = k) = true ↔ k ∈ dictKeys m := by
  simp [dictKeys, List.any_eq_true, List.mem_map]

theorem dictGet?_map_replace_ne (t : List (String × α)) (k : String) (v : α)
    (k' : String) (h : k' ≠ k) :
    dictGet? (t.map (fun p => if p.1 = k then (k, v) else p)) k' =
      dictGet? t k' := by
  induction t with
  | nil => rfl
  | cons p t ih =>
    rw [List.map_cons, dictGet?_cons, dictGet?_cons]
    by_cases hp : p.1 = k
    · have hne1 : ((k, v) : String × α).1 ≠ k' := fun hh => h (Eq.symm hh)
      have hne2 : p.1 ≠ k' := by
        rw [hp]
        exact fun hh => h (Eq.symm hh)
      rw [if_pos hp, if_neg hne1, if_neg hne2]
      exact ih
    · rw [if_neg hp]
      by_cases hk : p.1 = k'
      · rw [if_pos hk, if_pos hk]
      · rw [if_neg hk, if_neg hk]
        exact ih

theorem dictGet?_map_replace_self (t : List (String × α)) (k : String) (v : α)
    (hmem : k ∈ dictKeys t) :
    dictGet? (t.map (fun p => if p.1 = k then (k, v) else p)) k = some v := by
  induction t with
  | nil => simp [dictKeys_nil] at hmem
  | cons p t ih =>
    rw [List.map_cons, dictGet?_cons]
    by_cases hp : p.1 = k
    · rw [if_pos hp]
      simp
    · rw [if_neg hp, if_neg hp]
      apply ih
      rw [dictKeys_cons, List.mem_cons] at hmem
      rcases hmem with h1 | h1
      · exact absurd h1.symm hp
      · exact h1

theorem dictGet?_append_one (t : List (String × α)) (k : String) (v : α)
    (k' : String) (h : k' ∉ dictKeys t) :
    dictGet? (t ++ [(k, v)]) k' = if k' = k then some v else none := by
  induction t with
  | nil =>
    rw [List.nil_append, dictGet?_cons]
    by_cases hk : k' = k
    · rw [if_pos hk, if_pos (Eq.symm hk : ((k, v) : String × α).1 = k')]
    · rw [if_neg hk, if_neg (fun hh => hk (Eq.symm hh) : ¬ ((k, v) : String × α).1 = k')]
      rfl
  | cons p t ih =>
    rw [dictKeys_cons, List.mem_cons] at h
    push_neg at h
    rw [List.cons_append, dictGet?_cons, if_neg (fun hh => h.1 (Eq.symm hh))]
    exact ih h.2

theorem dictGet?_insert (m : List (String × α)) (k : String) (v : α)
    (k' : String) :
    dictGet? (dictInsert m k v) k' =
      if k' = k then some v else dictGet? m k' := by
  unfold dictInsert
  by_cases hmem : m.any (fun p => p.1 = k) = true
  · rw [if_pos hmem]
    by_cases hk : k' = k
    · subst hk
      rw [if_pos rfl,
        dictGet?_map_replace_self m k' v ((dictAny_iff m k').mp hmem)]
    · rw [if_neg hk, dictGet?_map_replace_ne m k v k' hk]
  · rw [if_neg hmem]
    have hnk : k ∉ dictKeys m := fun hh => hmem ((dictAny_iff m k).mpr hh)
    by_cases hk : k' = k
    · subst hk
      rw [if_pos rfl, dictGet?_append_one m k' v k' hnk, if_pos rfl]
    · rw [if_neg hk]
      cases hfind : dictGet? m k' with
      | none =>
        rw [dictGet?_append_one m k v k'
          ((dictGet?_eq_none_iff m k').mp hfind), if_neg hk]
      | some w =>
        simp only [dictGet?, List.find?_append] at hfind ⊢
        rcases hf : m.find? (fun p => decide (p.1 = k')) with _ | q
        · rw [hf] at hfind
          simp at hfind
        · rw [hf] at hfind ⊢
          simpa using hfind

theorem mem_dictInsert {m : List (String × α)} {k : String} {v : α}
    {p : String × α} (h : p ∈ dictInsert m k v) : p = (k, v) ∨ p ∈ m := by
  unfold dictInsert at h
  split at h
  · obtain ⟨q, hq, hqe⟩ := List.mem_map.mp h
    by_cases hqk : q.1 = k
    · rw [if_pos hqk] at hqe
      exact Or.inl hqe.symm
    · rw [if_neg hqk] at hqe
      exact Or.inr (hqe ▸ hq)
  · rcases List.mem_append.mp h with h1 | h1
    · exact Or.inr h1
    · simp at h1
      exact Or.inl (by simp [h1])

theorem dictKeys_insert (m : List (String × α)) (k : String) (v : α) :
    dictKeys (dictInsert m k v) =
      if k ∈ dictKeys m then dictKeys m else dictKeys m ++ [k] := by
  unfold dictInsert
  by_cases hmem : m.any (fun p => p.1 = k) = true
  · rw [if_pos hmem, if_pos ((dictAny_iff m k).mp hmem)]
    unfold dictKeys
    rw [List.map_map]
    congr 1
    funext p
    by_cases hp : p.1 = k
    · simp [hp]
    · simp [hp]
  · rw [if_neg hmem, if_neg (fun hh => hmem ((dictAny_iff m k).mpr hh))]
    unfold dictKeys
    rw [List.map_append]
    rfl

theorem dictKeys_insert_nodup (m : List (String × α)) (k : String) (v : α)
    (h : (dictKeys m).Nodup) : (dictKeys (dictInsert m k v)).Nodup := by
  rw [dictKeys_insert]
  by_cases hk : k ∈ dictKeys m
  · rw [if_pos hk]
    exact h
  · rw [if_neg hk]
    simp [List.nodup_append, h, hk]

theorem mem_of_dictGet? {m : List (String × α)} {k : String} {v : α}
    (h : dictGet? m k = some v) : (k, v) ∈ m := by
  unfold dictGet? at h
  rw [Option.map_eq_some'] at h
  obtain ⟨p, hp, he⟩ := h
  have h1 : p.1 = k := by simpa using List.find?_some hp
  have h2 := List.mem_of_find?_eq_some hp
  have : p = (k, v) := by
    cases p
    simp at h1 he
    simp [h1, he]
  exact this ▸ h2

theorem dictGet?_map_val {β : Type} (m : List (String × α)) (g : α → β)
    (k : String) :
    dictGet? (m.map (fun p => (p.1, g p.2))) k = (dictGet? m k).map g := by
  induction m with
  | nil => rfl
  | cons p t ih =>
    rw [List.map_cons, dictGet?_cons, dictGet?_cons]
    by_cases hp : p.1 = k
    · simp [hp]
    · simp [hp, ih]

theorem foldl_invariant {σ β : Type} (P : σ → Prop) (f : σ → β → σ)
    (l : List β) (s : σ) (h0 : P s)
    (hstep : ∀ s b, b ∈ l → P s → P (f s b)) : P (l.foldl f s) := by
  induction l generalizing s with
  | nil => exact h0
  | cons b t ih =>
    exact ih (f s b) (hstep s b (List.mem_cons_self b t) h0)
      (fun s' b' hb' => hstep s' b' (List.mem_cons_of_mem b hb'))

/-! ### Decimal printing: injectivity of the "ip:port" connection id

The conn_id f-string of line 161 is the only place the program relies on
string keys; since the decimal digits of a number never contain a colon,
the id determines the address and the port uniquely.  The following
lemmas establish this for the embedding. -/

theorem digitChar_ne_colon (m : Nat) : Nat.digitChar m ≠ ':' := by
  by_cases h16 : 16 ≤ m
  · unfold Nat.digitChar
    rw [if_neg (by omega : ¬ m = 0), if_neg (by omega : ¬ m = 1),
        if_neg (by omega : ¬ m = 2), if_neg (by omega : ¬ m = 3),
        if_neg (by omega : ¬ m = 4), if_neg (by omega : ¬ m = 5),
        if_neg (by omega : ¬ m = 6), if_neg (by omega : ¬ m = 7),
        if_neg (by omega : ¬ m = 8), if_neg (by omega : ¬ m = 9),
        if_neg (by omega : ¬ m = 10), if_neg (by omega : ¬ m = 11),
        if_neg (by omega : ¬ m = 12), if_neg (by omega : ¬ m = 13),
        if_neg (by omega : ¬ m = 14), if_neg (by omega : ¬ m = 15)]
    decide
  · interval_cases m <;> decide

theorem toDigitsCore_append (f : Nat) : ∀ (n : Nat) (acc : List Char),
    Nat.toDigitsCore 10 f n acc = Nat.toDigitsCore 10 f n [] ++ acc := by
  induction f with
  | zero => intro n acc; simp [Nat.toDigitsCore]
  | succ f ih =>
    intro n acc
    simp only [Nat.toDigitsCore]
    by_cases h : n / 10 = 0
    · simp [h]
    · rw [if_neg h, if_neg h, ih (n / 10) (Nat.digitChar (n % 10) :: acc),
        ih (n / 10) [Nat.digitChar (n % 10)]]
      simp

theorem toDigitsCore_fuel (n : Nat) : ∀ (f₁ f₂ : Nat) (acc : List Char),
    n < f₁ → n < f₂ →
    Nat.toDigitsCore 10 f₁ n acc = Nat.toDigitsCore 10 f₂ n acc := by
  induction n using Nat.strong_induction_on with
  | _ n ih =>
    intro f₁ f₂ acc h₁ h₂
    match f₁, f₂ with
    | g₁ + 1, g₂ + 1 =>
      simp only [Nat.toDigitsCore]
      by_cases h : n / 10 = 0
      · simp [h]
      · rw [if_neg h, if_neg h]
        have hn : 10 ≤ n := by
          rcases Nat.lt_or_ge n 10 with hl | hg
          · exact absurd (Nat.div_eq_of_lt hl) h
          · exact hg
        exact ih (n / 10) (by omega) g₁ g₂ _ (by omega) (by omega)

/-- Characters of the decimal representation of a number. -/
def natDigits (n : Nat) : List Char :=
  Nat.toDigits 10 n

theorem natDigits_base {n : Nat} (h : n < 10) :
    natDigits n = [Nat.digitChar n] := by
  simp only [natDigits, Nat.toDigits, Nat.toDigitsCore]
  rw [if_pos (Nat.div_eq_of_lt h), Nat.mod_eq_of_lt h]

theorem natDigits_step {n : Nat} (h : 10 ≤ n) :
    natDigits n = natDigits (n / 10) ++ [Nat.digitChar (n % 10)] := by
  have hd : ¬ n / 10 = 0 := by
    intro h0
    have := Nat.div_mul_le_self n 10
    rw [h0] at this
    omega
  calc natDigits n
      = Nat.toDigitsCore 10 n (n / 10) [Nat.digitChar (n % 10)] := by
        show Nat.toDigitsCore 10 (n + 1) n [] = _
        simp only [Nat.toDigitsCore]
        rw [if_neg hd]
    _ = Nat.toDigitsCore 10 n (n / 10) [] ++ [Nat.digitChar (n % 10)] :=
        toDigitsCore_append n (n / 10) [Nat.digitChar (n % 10)]
    _ = Nat.toDigitsCore 10 (n / 10 + 1) (n / 10) [] ++
          [Nat.digitChar (n % 10)] := by
        rw [toDigitsCore_fuel (n / 10) n (n / 10 + 1) [] (by omega) (by omega)]
    _ = natDigits (n / 10) ++ [Nat.digitChar (n % 10)] := rfl

/-- Value read back from a decimal digit string. -/
def digitsVal (l : List Char) : Nat :=
  l.foldl (fun a c => 10 * a + (c.toNat - 48)) 0

theorem digitsVal_append_one (xs : List Char) (c : Char) :
    digitsVal (xs ++ [c]) = 10 * digitsVal xs + (c.toNat - 48) := by
  simp [digitsVal, List.foldl_append]

theorem digitChar_val {m : Nat} (h : m < 10) :
    (Nat.digitChar m).toNat - 48 = m := by
  interval_cases m <;> decide

theorem digitsVal_natDigits (n : Nat) : digitsVal (natDigits n) = n := by
  induction n using Nat.strong_induction_on with
  | _ n ih =>
    by_cases h : n < 10
    · rw [natDigits_base h]
      show 10 * 0 + ((Nat.digitChar n).toNat - 48) = n
      rw [digitChar_val h]
      omega
    · have h10 : 10 ≤ n := le_of_not_lt h
      rw [natDigits_step h10, digitsVal_append_one,
        ih (n / 10) (by omega), digitChar_val (Nat.mod_lt n (by norm_num))]
      omega

theorem natDigits_inj {p q : Nat} (h : natDigits p = natDigits q) : p = q := by
  have := digitsVal_natDigits p
  rw [h, digitsVal_natDigits] at this
  omega

theorem colon_not_mem_natDigits (n : Nat) : ':' ∉ natDigits n := by
  induction n using Nat.strong_induction_on with
  | _ n ih =>
    by_cases h : n < 10
    · rw [natDigits_base h]
      simp
      exact (digitChar_ne_colon n).symm
    · rw [natDigits_step (le_of_not_lt h)]
      intro hm
      rcases List.mem_append.mp hm with h1 | h1
      · exact ih (n / 10) (by omega) h1
      · simp at h1
        exact digitChar_ne_colon (n % 10) h1.symm

theorem last_colon_split :
    ∀ (xs : List Char) {ys ds es : List Char}, ':' ∉ ds → ':' ∉ es →
      xs ++ ':' :: ds = ys ++ ':' :: es → xs = ys ∧ ds = es := by
  intro xs
  induction xs with
  | nil =>
    intro ys ds es hds hes h
    cases ys with
    | nil => simpa using h
    | cons y ys =>
      simp at h
      exfalso
      apply hds
      rw [h.2]
      exact List.mem_append.mpr (Or.inr (by simp [h.1]))
  | cons x xs ih =>
    intro ys ds es hds hes h
    cases ys with
    | nil =>
      simp at h
      exfalso
      apply hes
      rw [← h.2]
      exact List.mem_append.mpr (Or.inr (by simp [h.1]))
    | cons y ys =>
      simp at h
      obtain ⟨rfl, h2⟩ := h
      obtain ⟨h3, h4⟩ := ih hds hes h2
      exact ⟨by rw [h3], h4⟩

theorem connId_inj {ip1 ip2 : String} {p1 p2 : Nat}
    (h : connId ip1 p1 = connId ip2 p2) : ip1 = ip2 ∧ p1 = p2 := by
  have hd := congrArg String.data h
  simp only [connId, String.data_append] at hd
  have hd2 : ip1.data ++ ':' :: natDigits p1 =
      ip2.data ++ ':' :: natDigits p2 := by
    simpa using hd
  obtain ⟨h1, h2⟩ := last_colon_split ip1.data
    (colon_not_mem_natDigits p1) (colon_not_mem_natDigits p2) hd2
  exact ⟨String.ext h1, natDigits_inj h2⟩

/-! ### Geolocation cache: lookup-or-populate characterization -/

/-- Location visible for an address right after the guarded cache
population step of lines 172-176. -/
def lookupGeo (api : String → Option ApiResponse)
    (cache : List (String × GeoLocation)) (ip : String) :
    Option GeoLocation :=
  dictGet? (geoStep api cache ip) ip

theorem geoStep_spec (api : String → Option ApiResponse)
    (cache : List (String × GeoLocation)) (ip : String) :
    geoStep api cache ip =
      if (dictGet? cache ip).isSome then cache
      else
        match apiResult (api ip) with
        | some g => dictInsert cache ip g
        | none => cache := by
  unfold geoStep
  by_cases h : (dictGet? cache ip).isSome
  · rw [if_pos h, if_pos h]
  · rw [if_neg h, if_neg h]
    have hnone : dictGet? cache ip = none := by
      cases hx : dictGet? cache ip
      · rfl
      · rw [hx] at h
        exact absurd rfl h
    unfold get_geoip_data apiResult
    rw [hnone]
    cases api ip with
    | none => rfl
    | some data =>
      dsimp only
      by_cases hs : data.status = "success"
      · rw [if_pos hs, if_pos hs]
      · rw [if_neg hs, if_neg hs]

theorem lookupGeo_spec (api : String → Option ApiResponse)
    (cache : List (String × GeoLocation)) (ip : String) :
    lookupGeo api cache ip =
      match dictGet? cache ip with
      | some g => some g
      | none => apiResult (api ip) := by
  unfold lookupGeo
  rw [geoStep_spec]
  cases h : dictGet? cache ip with
  | some g =>
    rw [if_pos (by simp [h])]
    exact h
  | none =>
    rw [if_neg (by simp [h])]
    cases ha : apiResult (api ip) with
    | some g =>
      rw [dictGet?_insert, if_pos rfl]
    | none =>
      exact h

theorem dictGet?_geoStep (api : String → Option ApiResponse)
    (cache : List (String × GeoLocation)) (ip ip0 : String) :
    dictGet? (geoStep api cache ip) ip0 =
      if ip0 = ip then lookupGeo api cache ip else dictGet? cache ip0 := by
  by_cases he : ip0 = ip
  · rw [if_pos he, he]
    rfl
  · rw [if_neg he, geoStep_spec]
    by_cases h : (dictGet? cache ip).isSome
    · rw [if_pos h]
    · rw [if_neg h]
      cases ha : apiResult (api ip) with
      | some g => rw [dictGet?_insert, if_neg he]
      | none => rfl

theorem lookupGeo_geoStep (api : String → Option ApiResponse)
    (cache : List (String × GeoLocation)) (ip ip0 : String) :
    lookupGeo api (geoStep api cache ip) ip0 = lookupGeo api cache ip0 := by
  rw [lookupGeo_spec, lookupGeo_spec, dictGet?_geoStep]
  by_cases he : ip0 = ip
  · rw [if_pos he, he, lookupGeo_spec]
    cases h : dictGet? cache ip with
    | some g => rfl
    | none =>
      cases ha : apiResult (api ip) with
      | some g => rfl
      | none => rfl
  · rw [if_neg he]

/-! ### ACCEPT pass characterization -/

/-- Connection record built by one iteration of the ACCEPT loop
(lines 184-195) from the geolocation visible for its address. -/
def builtConn (now : Nat) (closed_ports : List Nat)
    (geo : Option GeoLocation) (e : OpenEvent) : Conn :=
  { ip := e.ip, port := e.port, fd := e.fd,
    country := stripQuotes ((geo.map (fun g => g.country)).getD "Unknown"),
    city := stripQuotes ((geo.map (fun g => g.city)).getD "Unknown"),
    country_code := (geo.map (fun g => g.country_code)).getD "XX",
    started := e.ts.getD now, duration := 0,
    status := if e.port ∈ closed_ports then "released" else "trapped" }

/-- Working set built by the ACCEPT loop, as a function of a fixed
geolocation view. -/
def openFoldConns (now : Nat) (closed_ports : List Nat)
    (geoView : String → Option GeoLocation) (conns : List (String × Conn))
    (opens : List OpenEvent) : List (String × Conn) :=
  opens.foldl
    (fun cs e =>
      dictInsert cs (connId e.ip e.port)
        (builtConn now closed_ports (geoView e.ip) e))
    conns

/-- Per-address counts built by the ACCEPT loop (line 197). -/
def openFoldPerIp (perIp : List (String × Nat)) (opens : List OpenEvent) :
    List (String × Nat) :=
  opens.foldl
    (fun m e => dictInsert m e.ip ((dictGet? m e.ip).getD 0 + 1)) perIp

theorem openStep_eq (now : Nat) (closed_ports : List Nat)
    (api : String → Option ApiResponse) (acc : OpenAcc) (e : OpenEvent) :
    openStep now closed_ports api acc e =
      (dictInsert acc.1 (connId e.ip e.port)
        (builtConn now closed_ports (lookupGeo api acc.2.2 e.ip) e),
       dictInsert acc.2.1 e.ip ((dictGet? acc.2.1 e.ip).getD 0 + 1),
       geoStep api acc.2.2 e.ip) := rfl

theorem openFold_spec (now : Nat) (closed_ports : List Nat)
    (api : String → Option ApiResponse) (opens : List OpenEvent)
    (geoView : String → Option GeoLocation) :
    ∀ acc : OpenAcc, (∀ ip, lookupGeo api acc.2.2 ip = geoView ip) →
      (opens.foldl (openStep now closed_ports api) acc).1 =
          openFoldConns now closed_ports geoView acc.1 opens ∧
      (opens.foldl (openStep now closed_ports api) acc).2.1 =
          openFoldPerIp acc.2.1 opens ∧
      (∀ ip, lookupGeo api
          ((opens.foldl (openStep now closed_ports api) acc).2.2) ip =
        geoView ip) := by
  induction opens with
  | nil =>
    intro acc hview
    exact ⟨rfl, rfl, hview⟩
  | cons e t ih =>
    intro acc hview
    rw [List.foldl_cons, openStep_eq]
    have hview2 : ∀ ip,
        lookupGeo api
          ((dictInsert acc.1 (connId e.ip e.port)
              (builtConn now closed_ports (lookupGeo api acc.2.2 e.ip) e),
            dictInsert acc.2.1 e.ip ((dictGet? acc.2.1 e.ip).getD 0 + 1),
            geoStep api acc.2.2 e.ip) : OpenAcc).2.2 ip = geoView ip := by
      intro ip
      show lookupGeo api (geoStep api acc.2.2 e.ip) ip = geoView ip
      rw [lookupGeo_geoStep]
      exact hview ip
    obtain ⟨h1, h2, h3⟩ := ih _ hview2
    refine ⟨?_, ?_, h3⟩
    · rw [h1]
      show openFoldConns now closed_ports geoView
          (dictInsert acc.1 (connId e.ip e.port)
            (builtConn now closed_ports (lookupGeo api acc.2.2 e.ip) e)) t =
        openFoldConns now closed_ports geoView acc.1 (e :: t)
      rw [hview e.ip]
      rfl
    · rw [h2]
      rfl

/-! ### Last-match folds used by the ACCEPT and CLOSE passes -/

/-- Last open event of the window whose connection id is k (later ACCEPT
lines overwrite earlier ones at line 185). -/
def lastOpen? (opens : List OpenEvent) (k : String) : Option OpenEvent :=
  opens.foldl
    (fun acc e => if connId e.ip e.port = k then some e else acc) none

/-- Reported duration of the last CLOSE event of the window whose
connection id is k (later CLOSE lines overwrite earlier ones at 213). -/
def lastCloseTime? (closes : List CloseEvent) (k : String) : Option Rat :=
  closes.foldl
    (fun acc c => if connId c.ip c.port = k then some c.time else acc) none

theorem lastOpenAux (k : String) (t : List OpenEvent) :
    ∀ a : Option OpenEvent,
      t.foldl (fun acc e => if connId e.ip e.port = k then some e else acc) a =
        match lastOpen? t k with
        | some y => some y
        | none => a := by
  induction t with
  | nil => intro a; rfl
  | cons e t ih =>
    intro a
    rw [List.foldl_cons]
    show t.foldl _ _ = _
    by_cases hc : connId e.ip e.port = k
    · rw [if_pos hc, ih (some e)]
      have hx : lastOpen? (e :: t) k =
          t.foldl (fun acc e => if connId e.ip e.port = k then some e else acc)
            (some e) := by
        unfold lastOpen?
        rw [List.foldl_cons, if_pos hc]
      rw [hx, ih (some e)]
      cases lastOpen? t k with
      | some y => rfl
      | none => rfl
    · rw [if_neg hc, ih a]
      have hx : lastOpen? (e :: t) k = lastOpen? t k := by
        unfold lastOpen?
        rw [List.foldl_cons, if_neg hc]
      rw [hx]

theorem lastCloseAux (k : String) (t : List CloseEvent) :
    ∀ a : Option Rat,
      t.foldl
        (fun acc c => if connId c.ip c.port = k then some c.time else acc) a =
        match lastCloseTime? t k with
        | some y => some y
        | none => a := by
  induction t with
  | nil => intro a; rfl
  | cons c t ih =>
    intro a
    rw [List.foldl_cons]
    show t.foldl _ _ = _
    by_cases hc : connId c.ip c.port = k
    · rw [if_pos hc, ih (some c.time)]
      have hx : lastCloseTime? (c :: t) k =
          t.foldl
            (fun acc c => if connId c.ip c.port = k then some c.time else acc)
            (some c.time) := by
        unfold lastCloseTime?
        rw [List.foldl_cons, if_pos hc]
      rw [hx, ih (some c.time)]
      cases lastCloseTime? t k with
      | some y => rfl
      | none => rfl
    · rw [if_neg hc, ih a]
      have hx : lastCloseTime? (c :: t) k = lastCloseTime? t k := by
        unfold lastCloseTime?
        rw [List.foldl_cons, if_neg hc]
      rw [hx]

theorem lastOpen?_cons (e : OpenEvent) (t : List OpenEvent) (k : String) :
    lastOpen? (e :: t) k =
      match lastOpen? t k with
      | some y => some y
      | none => if connId e.ip e.port = k then some e else none := by
  unfold lastOpen?
  rw [List.foldl_cons]
  by_cases hc : connId e.ip e.port = k
  · rw [if_pos hc]
    exact lastOpenAux k t (some e)
  · rw [if_neg hc]
    exact lastOpenAux k t none

theorem lastCloseTime?_cons (c : CloseEvent) (t : List CloseEvent)
    (k : String) :
    lastCloseTime? (c :: t) k =
      match lastCloseTime? t k with
      | some y => some y
      | none => if connId c.ip c.port = k then some c.time else none := by
  unfold lastCloseTime?
  rw [List.foldl_cons]
  by_cases hc : connId c.ip c.port = k
  · rw [if_pos hc]
    exact lastCloseAux k t (some c.time)
  · rw [if_neg hc]
    exact lastCloseAux k t none

theorem openFoldConns_get (now : Nat) (cp : List Nat)
    (geoView : String → Option GeoLocation) (opens : List OpenEvent) :
    ∀ (conns : List (String × Conn)) (k : String),
      dictGet? (openFoldConns now cp geoView conns opens) k =
        match lastOpen? opens k with
        | some e => some (builtConn now cp (geoView e.ip) e)
        | none => dictGet? conns k := by
  induction opens with
  | nil => intro conns k; rfl
  | cons e t ih =>
    intro conns k
    unfold openFoldConns
    rw [List.foldl_cons]
    show dictGet? (openFoldConns now cp geoView _ t) k = _
    rw [ih _ k, lastOpen?_cons]
    cases hrest : lastOpen? t k with
    | some y => rfl
    | none =>
      show dictGet? (dictInsert conns (connId e.ip e.port) _) k = _
      rw [dictGet?_insert]
      by_cases hc : connId e.ip e.port = k
      · rw [if_pos hc.symm, if_pos hc]
      · rw [if_neg (fun hh => hc hh.symm), if_neg hc]

theorem conn_set_duration_twice (c : Conn) (a b : Rat) :
    ({ ({ c with duration := a } : Conn) with duration := b } : Conn) =
      { c with duration := b } := by
  cases c
  rfl

theorem closeFold_get (closes : List CloseEvent) :
    ∀ (conns hall : List (String × Conn)) (k : String),
      dictGet? ((closes.foldl closeStep (conns, hall)).1) k =
        match dictGet? conns k with
        | none => none
        | some c =>
          some (match lastCloseTime? closes k with
                | some t => { c with duration := t }
                | none => c) := by
  induction closes with
  | nil =>
    intro conns hall k
    show dictGet? conns k = _
    cases h : dictGet? conns k with
    | none => rfl
    | some c => rfl
  | cons ce t ih =>
    intro conns hall k
    rw [List.foldl_cons]
    cases hc : dictGet? conns (connId ce.ip ce.port) with
    | none =>
      have hstep : closeStep (conns, hall) ce = (conns, hall) := by
        unfold closeStep
        dsimp only
        rw [hc]
      rw [hstep, ih conns hall k, lastCloseTime?_cons]
      cases hk : dictGet? conns k with
      | none => rfl
      | some c =>
        have hck : ¬ connId ce.ip ce.port = k := by
          intro hh
          rw [hh, hk] at hc
          exact Option.noConfusion hc
        cases hrest : lastCloseTime? t k with
        | some y => rfl
        | none =>
          show some c = some (match (if connId ce.ip ce.port = k
              then some ce.time else none : Option Rat) with
            | some t => { c with duration := t }
            | none => c)
          rw [if_neg hck]
    | some conn =>
      have hstep : closeStep (conns, hall) ce =
          (dictInsert conns (connId ce.ip ce.port)
            { conn with duration := ce.time },
           dictInsert hall (connId ce.ip ce.port)
            { conn with duration := ce.time }) := by
        unfold closeStep
        dsimp only
        rw [hc]
      rw [hstep, ih _ _ k, lastCloseTime?_cons]
      by_cases hck : connId ce.ip ce.port = k
      · rw [dictGet?_insert, if_pos hck.symm]
        have hck2 : dictGet? conns k = some conn := by
          rw [← hck]
          exact hc
        rw [hck2]
        cases hrest : lastCloseTime? t k with
        | some y =>
          show some ({ ({ conn with duration := ce.time } : Conn) with
            duration := y } : Conn) = _
          rw [conn_set_duration_twice]
        | none =>
          show some ({ conn with duration := ce.time } : Conn) =
            some (match (if connId ce.ip ce.port = k
                then some ce.time else none : Option Rat) with
              | some t => { conn with duration := t }
              | none => conn)
          rw [if_pos hck]
      · rw [dictGet?_insert, if_neg (fun hh => hck hh.symm)]
        cases hk : dictGet? conns k with
        | none => rfl
        | some c =>
          cases hrest : lastCloseTime? t k with
          | some y => rfl
          | none =>
            show some c = some (match (if connId ce.ip ce.port = k
                then some ce.time else none : Option Rat) with
              | some t => { c with duration := t }
              | none => c)
            rw [if_neg hck]

/-! ### Record-update projection helpers -/

theorem conn_set_duration_status (c : Conn) (t : Rat) :
    ({ c with duration := t } : Conn).status = c.status := by
  cases c
  rfl

theorem conn_set_duration_port (c : Conn) (t : Rat) :
    ({ c with duration := t } : Conn).port = c.port := by
  cases c
  rfl

theorem conn_set_duration_ip (c : Conn) (t : Rat) :
    ({ c with duration := t } : Conn).ip = c.ip := by
  cases c
  rfl

theorem conn_set_duration_started (c : Conn) (t : Rat) :
    ({ c with duration := t } : Conn).started = c.started := by
  cases c
  rfl

theorem conn_set_duration_duration (c : Conn) (t : Rat) :
    ({ c with duration := t } : Conn).duration = t := by
  cases c
  rfl

theorem recomputeConn_status (now : Nat) (c : Conn) :
    (recomputeConn now c).status = c.status := by
  unfold recomputeConn
  split
  · exact conn_set_duration_status c _
  · rfl

theorem recomputeConn_port (now : Nat) (c : Conn) :
    (recomputeConn now c).port = c.port := by
  unfold recomputeConn
  split
  · exact conn_set_duration_port c _
  · rfl

theorem recomputeConn_ip (now : Nat) (c : Conn) :
    (recomputeConn now c).ip = c.ip := by
  unfold recomputeConn
  split
  · exact conn_set_duration_ip c _
  · rfl

theorem recomputeConn_of_trapped {now : Nat} {c : Conn}
    (h : c.status = "trapped") :
    recomputeConn now c = { c with duration := (now : Rat) - (c.started : Rat) } := by
  unfold recomputeConn
  rw [if_pos h]

theorem recomputeConn_of_released {now : Nat} {c : Conn}
    (h : c.status = "released") :
    recomputeConn now c = c := by
  unfold recomputeConn
  rw [if_neg (by rw [h]; decide)]

/-! ### Projection equations of parse_endlessh_logs -/

theorem parse_working_eq (api : String → Option ApiResponse) (now : Nat)
    (st : PassState) (w : Window) (sh : List OpenEvent) :
    (parse_endlessh_logs api now st w sh).2.working =
      ((w.closes.foldl closeStep
        ((w.opens.foldl (openStep now (w.closes.map (fun c => c.port)) api)
          (([], [], st.ip_locations) : OpenAcc)).1, st.hall_of_fame)).1).map
        (fun p => (p.1, recomputeConn now p.2)) := rfl

theorem parse_perIp_eq (api : String → Option ApiResponse) (now : Nat)
    (st : PassState) (w : Window) (sh : List OpenEvent) :
    (parse_endlessh_logs api now st w sh).2.connections_per_ip =
      (w.opens.foldl (openStep now (w.closes.map (fun c => c.port)) api)
        (([], [], st.ip_locations) : OpenAcc)).2.1 := rfl

theorem parse_cache_eq (api : String → Option ApiResponse) (now : Nat)
    (st : PassState) (w : Window) (sh : List OpenEvent) :
    (parse_endlessh_logs api now st w sh).1.ip_locations =
      (w.opens.foldl (openStep now (w.closes.map (fun c => c.port)) api)
        (([], [], st.ip_locations) : OpenAcc)).2.2 := rfl

theorem parse_counter_eq (api : String → Option ApiResponse) (now : Nat)
    (st : PassState) (w : Window) (sh : List OpenEvent) :
    (parse_endlessh_logs api now st w sh).1.counter =
      processShortWindow st.counter sh := rfl

theorem parse_hall_eq (api : String → Option ApiResponse) (now : Nat)
    (st : PassState) (w : Window) (sh : List OpenEvent) :
    (parse_endlessh_logs api now st w sh).1.hall_of_fame =
      trimHall (dedupHall
        ((w.closes.foldl closeStep
          ((w.opens.foldl (openStep now (w.closes.map (fun c => c.port)) api)
            (([], [], st.ip_locations) : OpenAcc)).1, st.hall_of_fame)).2)) := rfl

theorem parse_trapped_eq (api : String → Option ApiResponse) (now : Nat)
    (st : PassState) (w : Window) (sh : List OpenEvent) :
    (parse_endlessh_logs api now st w sh).2.trapped =
      ((parse_endlessh_logs api now st w sh).2.working).filter
        (fun p => p.2.status = "trapped") := rfl

theorem parse_display_eq (api : String → Option ApiResponse) (now : Nat)
    (st : PassState) (w : Window) (sh : List OpenEvent) :
    (parse_endlessh_logs api now st w sh).2.display =
      ((parse_endlessh_logs api now st w sh).1.hall_of_fame).foldl
        (fun acc2 p => dictInsert acc2 p.1 p.2)
        ((parse_endlessh_logs api now st w sh).2.trapped) := rfl

theorem parse_durs_eq (api : String → Option ApiResponse) (now : Nat)
    (st : PassState) (w : Window) (sh : List OpenEvent) :
    (parse_endlessh_logs api now st w sh).2.all_durations =
      ((parse_endlessh_logs api now st w sh).2.display).map
        (fun p => p.2.duration) := rfl

theorem parse_max_eq (api : String → Option ApiResponse) (now : Nat)
    (st : PassState) (w : Window) (sh : List OpenEvent) :
    (parse_endlessh_logs api now st w sh).2.max_trap_duration =
      (match (parse_endlessh_logs api now st w sh).2.all_durations with
       | [] => 0
       | d :: rest => rest.foldl max d) := rfl

/-! ### Master lookup lemma for the reconciled working set -/

theorem parse_working_get (api : String → Option ApiResponse) (now : Nat)
    (st : PassState) (w : Window) (sh : List OpenEvent) (k : String) :
    dictGet? ((parse_endlessh_logs api now st w sh).2.working) k =
      match lastOpen? w.opens k with
      | none => none
      | some e =>
        some (recomputeConn now
          (match lastCloseTime? w.closes k with
           | some t =>
             { builtConn now (w.closes.map (fun c => c.port))
                 (lookupGeo api st.ip_locations e.ip) e with duration := t }
           | none =>
             builtConn now (w.closes.map (fun c => c.port))
               (lookupGeo api st.ip_locations e.ip) e)) := by
  rw [parse_working_eq, dictGet?_map_val, closeFold_get]
  have hopen := (openFold_spec now (w.closes.map (fun c => c.port)) api w.opens
    (lookupGeo api st.ip_locations) ([], [], st.ip_locations)
    (fun ip => rfl)).1
  rw [hopen, openFoldConns_get]
  cases ho : lastOpen? w.opens k with
  | none => rfl
  | some e =>
    cases hcl : lastCloseTime? w.closes k with
    | some t => rfl
    | none => rfl

theorem lastOpen?_mem {opens : List OpenEvent} {k : String} {e : OpenEvent}
    (h : lastOpen? opens k = some e) :
    e ∈ opens ∧ connId e.ip e.port = k := by
  induction opens with
  | nil => exact Option.noConfusion h
  | cons e0 t ih =>
    rw [lastOpen?_cons] at h
    cases hrest : lastOpen? t k with
    | some y =>
      rw [hrest] at h
      dsimp only at h
      obtain rfl := Option.some.inj h
      obtain ⟨h1, h2⟩ := ih hrest
      exact ⟨List.mem_cons_of_mem e0 h1, h2⟩
    | none =>
      rw [hrest] at h
      dsimp only at h
      by_cases hc : connId e0.ip e0.port = k
      · rw [if_pos hc] at h
        obtain rfl := Option.some.inj h
        exact ⟨List.mem_cons_self e0 t, hc⟩
      · rw [if_neg hc] at h
        exact Option.noConfusion h

theorem lastCloseTime?_mem {closes : List CloseEvent} {k : String} {t : Rat}
    (h : lastCloseTime? closes k = some t) :
    ∃ ce ∈ closes, connId ce.ip ce.port = k ∧ ce.time = t := by
  induction closes with
  | nil => exact Option.noConfusion h
  | cons c0 rest ih =>
    rw [lastCloseTime?_cons] at h
    cases hrest : lastCloseTime? rest k with
    | some y =>
      rw [hrest] at h
      dsimp only at h
      obtain rfl := Option.some.inj h
      obtain ⟨ce, h1, h2, h3⟩ := ih hrest
      exact ⟨ce, List.mem_cons_of_mem c0 h1, h2, h3⟩
    | none =>
      rw [hrest] at h
      dsimp only at h
      by_cases hc : connId c0.ip c0.port = k
      · rw [if_pos hc] at h
        obtain rfl := Option.some.inj h
        exact ⟨c0, List.mem_cons_self c0 rest, hc, rfl⟩
      · rw [if_neg hc] at h
        exact Option.noConfusion h

theorem lastOpen?_isSome_of_mem {opens : List OpenEvent} {e : OpenEvent}
    (h : e ∈ opens) : (lastOpen? opens (connId e.ip e.port)).isSome = true := by
  induction opens with
  | nil => exact absurd h (List.not_mem_nil e)
  | cons e0 t ih =>
    rw [lastOpen?_cons]
    cases hrest : lastOpen? t (connId e.ip e.port) with
    | some y => rfl
    | none =>
      dsimp only
      rcases List.mem_cons.mp h with rfl | hmem
      · rw [if_pos rfl]
        rfl
      · rw [hrest] at ih
        exact absurd (ih hmem) (by decide)

/-! ### Claim C1 -/

/-- Fixture: a geolocation service that always fails. -/
def noApi : String → Option ApiResponse := fun _ => none

/-- Fixture: the process state at startup with nothing persisted. -/
def emptyPassState : PassState :=
  { hall_of_fame := [], ip_locations := [],
    counter := { total := 0, seen := ∅ } }

/-- Fixture for C1: an open event for origin 1.1.1.1 port 40001, and a
close event for the SAME PORT but a DIFFERENT origin 2.2.2.2. -/
def cexWindowC1 : Window :=
  { opens := [{ ip := "1.1.1.1", port := 40001, fd := 3, nActive := 1,
                nTotal := 1, ts := some 100 }],
    closes := [{ ip := "2.2.2.2", port := 40001, fd := 4, time := 5 }] }

/-- C1, counterexample.  The claim states that the already-terminated
index is the set of (origin address, origin port) PAIRS of the close
events and that an open event whose port equals the port of a close event
from a different origin is still classified active.  The code (lines
143-148, 179-182) indexes by PORT ONLY: the record for 1.1.1.1:40001 is
classified released (terminated) although the only close event is for
origin 2.2.2.2. -/
theorem c1_counterexample_cross_origin_port :
    (dictGet? ((parse_endlessh_logs noApi 1000 emptyPassState cexWindowC1
        []).2.working) "1.1.1.1:40001").map Conn.status = some "released" ∧
    ("released" : String) ≠ "trapped" := by
  constructor
  · decide
  · decide

/-- C1, amended: the already-terminated index the Reconciler builds is the
set of origin PORTS occurring in any close event of the window, and a
record built from an open event is classified terminated (released) if and
only if its origin port is in that index, regardless of the close event's
origin address; otherwise it is active (trapped). -/
theorem c1_status_iff_port_closed
    (api : String → Option ApiResponse) (now : Nat) (st : PassState)
    (w : Window) (sh : List OpenEvent) (k : String) (c : Conn)
    (h : dictGet? ((parse_endlessh_logs api now st w sh).2.working) k =
      some c) :
    (c.status = "released" ∨ c.status = "trapped") ∧
    (c.status = "released" ↔ c.port ∈ w.closes.map (fun ce => ce.port)) := by
  rw [parse_working_get] at h
  cases ho : lastOpen? w.opens k with
  | none =>
    rw [ho] at h
    exact Option.noConfusion h
  | some e =>
    rw [ho] at h
    dsimp only at h
    have hc := Option.some.inj h
    have hkey : c.status =
        (if e.port ∈ w.closes.map (fun ce => ce.port) then "released"
         else "trapped") ∧ c.port = e.port := by
      cases hcl : lastCloseTime? w.closes k with
      | some t =>
        rw [hcl] at hc
        dsimp only at hc
        constructor
        · rw [← hc, recomputeConn_status, conn_set_duration_status]
          rfl
        · rw [← hc, recomputeConn_port, conn_set_duration_port]
          rfl
      | none =>
        rw [hcl] at hc
        dsimp only at hc
        constructor
        · rw [← hc, recomputeConn_status]
          rfl
        · rw [← hc, recomputeConn_port]
          rfl
    obtain ⟨hs, hp⟩ := hkey
    by_cases hin : e.port ∈ w.closes.map (fun ce => ce.port)
    · rw [if_pos hin] at hs
      refine ⟨Or.inl hs, ?_, ?_⟩
      · intro _
        rw [hp]
        exact hin
      · intro _
        exact hs
    · rw [if_neg hin] at hs
      refine ⟨Or.inr hs, ?_, ?_⟩
      · intro hrel
        rw [hs] at hrel
        exact absurd hrel (by decide)
      · intro hmem
        rw [hp] at hmem
        exact absurd hmem hin

/-- C1 witness: the amended theorem applied to the concrete fixture. -/
theorem c1_status_iff_port_closed_witness :
    (dictGet? ((parse_endlessh_logs noApi 1000 emptyPassState cexWindowC1
        []).2.working) "1.1.1.1:40001" =
      some { ip := "1.1.1.1", port := 40001, fd := 3, country := "Unknown",
             city := "Unknown", country_code := "XX", started := 100,
             duration := 0, status := "released" }) ∧
    (("released" : String) = "released" ∨ ("released" : String) = "trapped") ∧
    (("released" : String) = "released" ↔
      (40001 : Nat) ∈ cexWindowC1.closes.map (fun ce => ce.port)) := by
  have hget : dictGet? ((parse_endlessh_logs noApi 1000 emptyPassState
      cexWindowC1 []).2.working) "1.1.1.1:40001" =
      some { ip := "1.1.1.1", port := 40001, fd := 3, country := "Unknown",
             city := "Unknown", country_code := "XX", started := 100,
             duration := 0, status := "released" } := by decide
  have hmain := c1_status_iff_port_closed noApi 1000 emptyPassState
    cexWindowC1 [] "1.1.1.1:40001" _ hget
  exact ⟨hget, hmain⟩

/-! ### Claim C6 -/

theorem recompute_trapped_duration {now : Nat} {c1 c : Conn}
    (hc : recomputeConn now c1 = c) (htrap : c.status = "trapped") :
    c.duration = (now : Rat) - (c.started : Rat) := by
  subst hc
  have hst : c1.status = "trapped" := by
    rw [recomputeConn_status] at htrap
    exact htrap
  rw [recomputeConn_of_trapped hst, conn_set_duration_duration,
    conn_set_duration_started]

theorem recompute_released_eq {now : Nat} {c1 c : Conn}
    (hc : recomputeConn now c1 = c) (hrel : c1.status = "released") :
    c = c1 := by
  subst hc
  exact recomputeConn_of_released hrel

/-- C6: for every record of the reconciled working set, an active
(trapped) record's duration equals now minus its start timestamp,
recomputed in this pass; and a record whose (origin, port) key matched a
close event of the window is terminated (released) with duration exactly
the reported duration of the last matching close event, not a wall-clock
difference. -/
theorem c6_duration_correctness
    (api : String → Option ApiResponse) (now : Nat) (st : PassState)
    (w : Window) (sh : List OpenEvent) (k : String) (c : Conn)
    (h : dictGet? ((parse_endlessh_logs api now st w sh).2.working) k =
      some c) :
    (c.status = "trapped" → c.duration = (now : Rat) - (c.started : Rat)) ∧
    (∀ t, lastCloseTime? w.closes k = some t →
      c.status = "released" ∧ c.duration = t) := by
  rw [parse_working_get] at h
  cases ho : lastOpen? w.opens k with
  | none =>
    rw [ho] at h
    exact Option.noConfusion h
  | some e =>
    rw [ho] at h
    dsimp only at h
    have hc := Option.some.inj h
    obtain ⟨hemem, hek⟩ := lastOpen?_mem ho
    cases hcl : lastCloseTime? w.closes k with
    | none =>
      rw [hcl] at hc
      dsimp only at hc
      refine ⟨fun htrap => recompute_trapped_duration hc htrap, ?_⟩
      intro t hsome
      exact Option.noConfusion hsome
    | some t0 =>
      rw [hcl] at hc
      dsimp only at hc
      obtain ⟨ce, hcemem, hcek, hcet⟩ := lastCloseTime?_mem hcl
      have hport : ce.port = e.port := (connId_inj (hcek.trans hek.symm)).2
      have hin : e.port ∈ w.closes.map (fun x => x.port) :=
        List.mem_map.mpr ⟨ce, hcemem, hport⟩
      have hbstat : (builtConn now (w.closes.map (fun x => x.port))
          (lookupGeo api st.ip_locations e.ip) e).status = "released" := by
        show (if e.port ∈ w.closes.map (fun x => x.port) then "released"
          else "trapped") = "released"
        rw [if_pos hin]
      have hc1stat : ({ builtConn now (w.closes.map (fun x => x.port))
          (lookupGeo api st.ip_locations e.ip) e with
          duration := t0 } : Conn).status = "released" := by
        rw [conn_set_duration_status]
        exact hbstat
      have hceq : c = { builtConn now (w.closes.map (fun x => x.port))
          (lookupGeo api st.ip_locations e.ip) e with duration := t0 } :=
        recompute_released_eq hc hc1stat
      refine ⟨?_, ?_⟩
      · intro htrap
        rw [hceq, conn_set_duration_status] at htrap
        rw [hbstat] at htrap
        exact absurd htrap (by decide)
      · intro t hsome
        obtain rfl := Option.some.inj hsome
        constructor
        · rw [hceq]
          exact hc1stat
        · rw [hceq, conn_set_duration_duration]

/-- Fixture for C6: the spec scenario, an open event for 9.9.9.9:1
followed by a close event for the same key reporting its duration. -/
def c6Window : Window :=
  { opens := [{ ip := "9.9.9.9", port := 1, fd := 2, nActive := 1,
                nTotal := 1, ts := some 10 }],
    closes := [{ ip := "9.9.9.9", port := 1, fd := 2, time := 734 }] }

/-- C6 witness: the theorem applied to the concrete 734.50-second close. -/
theorem c6_duration_correctness_witness :
    (dictGet? ((parse_endlessh_logs noApi 1000 emptyPassState c6Window
        []).2.working) "9.9.9.9:1" =
      some { ip := "9.9.9.9", port := 1, fd := 2, country := "Unknown",
             city := "Unknown", country_code := "XX", started := 10,
             duration := 734, status := "released" }) ∧
    lastCloseTime? c6Window.closes "9.9.9.9:1" = some (734 : Rat) ∧
    (("released" : String) = "released" ∧ (734 : Rat) = 734) := by
  have hget : dictGet? ((parse_endlessh_logs noApi 1000 emptyPassState
      c6Window []).2.working) "9.9.9.9:1" =
      some { ip := "9.9.9.9", port := 1, fd := 2, country := "Unknown",
             city := "Unknown", country_code := "XX", started := 10,
             duration := 734, status := "released" } := by decide
  have hcl : lastCloseTime? c6Window.closes "9.9.9.9:1" =
      some (734 : Rat) := by decide
  have hmain := (c6_duration_correctness noApi 1000 emptyPassState c6Window
    [] "9.9.9.9:1" _ hget).2 734 hcl
  exact ⟨hget, hcl, hmain⟩

/-! ### Claim C2 -/

/-- C2 evaluation at the failing input.  The claim (and the comment at
line 275 of the source) says the de-duplication identifier is computed
from (event timestamp, descriptor id), so two open events with the same
timestamp and fd 5 but different ports would be counted once.  The code
sets fd = match.group(2) at line 278, which is the PORT capture of
accept_pattern, so the two events below get distinct log ids and the
counter is incremented twice. -/
theorem c2_same_timestamp_fd_counted_twice :
    (processShortWindow { total := 0, seen := ∅ }
      [{ ip := "198.51.100.7", port := 1111, fd := 5, nActive := 1,
         nTotal := 1, ts := some 100 },
       { ip := "198.51.100.7", port := 2222, fd := 5, nActive := 1,
         nTotal := 1, ts := some 100 }]).total = 2 := by
  decide

/-! ### Claim C5 -/

/-- C5, counterexample.  The claim says a given open-event line appearing
in two consecutive scrapes increments the counter at most once.  A scrape
of 1001 distinct open events overflows the recency set, which is cleared
at the end of the pass (lines 288-291); the next scrape re-counts the
repeated line: the line of dupEvent 0 appears in both scrapes and the
counter rises from 1001 to 1002, i.e. that line is counted twice. -/
theorem c5_counterexample_recount_after_clear :
    dupEvent 0 ∈ scrapeA ∧
    (processShortWindow { total := 0, seen := ∅ } scrapeA).total = 1001 ∧
    (processShortWindow (processShortWindow { total := 0, seen := ∅ }
      scrapeA) [dupEvent 0]).total = 1002 := by
  refine ⟨List.mem_map.mpr ⟨0, by simp, rfl⟩, ?_, ?_⟩
  · rw [scrapeA_process]
  · rw [scrapeA_process]
    decide

/-- C5, amended: the counter is monotonically non-decreasing across any
sequence of scrapes; and provided the recency set is not cleared (its
size stays at most 1000), the counter rises over two consecutive
overlapping scrapes by exactly the number of distinct de-duplication
identifiers not already seen - so a line appearing in both scrapes is
counted at most once.  Without that proviso the clearing of the set can
re-count a line, as the counterexample shows. -/
theorem c5_counter_monotone_no_double_count :
    (∀ (st : CounterState) (scrapes : List (List OpenEvent)),
      st.total ≤ (scrapes.foldl processShortWindow st).total) ∧
    (∀ (st : CounterState) (evs1 evs2 : List OpenEvent),
      ((evs1 ++ evs2).foldl countStep st).seen.card ≤ 1000 →
      (processShortWindow (processShortWindow st evs1) evs2).total =
        st.total + ((logIds (evs1 ++ evs2)).toFinset \ st.seen).card) := by
  constructor
  · intro st scrapes
    induction scrapes generalizing st with
    | nil => exact le_refl _
    | cons s rest ih =>
      rw [List.foldl_cons]
      exact le_trans (processShortWindow_total_mono st s)
        (ih (processShortWindow st s))
  · intro st evs1 evs2 h
    exact processShortWindow_no_clear_eq st evs1 evs2 h

/-- C5 witness: the no-double-count part applied to the same open event
scraped twice with a small recency set. -/
theorem c5_counter_witness :
    (([dupEvent 0] ++ [dupEvent 0]).foldl countStep
      { total := 0, seen := (∅ : Finset (Nat × Nat)) }).seen.card ≤ 1000 ∧
    (processShortWindow (processShortWindow
        { total := 0, seen := (∅ : Finset (Nat × Nat)) } [dupEvent 0])
      [dupEvent 0]).total =
      0 + ((logIds ([dupEvent 0] ++ [dupEvent 0])).toFinset \
        (∅ : Finset (Nat × Nat))).card := by
  refine ⟨by decide, ?_⟩
  exact c5_counter_monotone_no_double_count.2
    { total := 0, seen := ∅ } [dupEvent 0] [dupEvent 0] (by decide)

/-! ### Claim C7 -/

theorem countFold_no_new (evs : List OpenEvent) (st : CounterState)
    (h : (logIds evs).toFinset ⊆ st.seen) :
    evs.foldl countStep st = st := by
  have hs := (countStep_fold_spec evs st).1
  have ht := (countStep_fold_spec evs st).2
  have h1 : st.seen ∪ (logIds evs).toFinset = st.seen :=
    Finset.union_eq_left.mpr h
  have h2 : (logIds evs).toFinset \ st.seen = ∅ :=
    Finset.sdiff_eq_empty_iff_subset.mpr h
  cases hx : evs.foldl countStep st with
  | mk a b =>
    rw [hx] at hs ht
    dsimp at hs ht
    rw [h1] at hs
    rw [h2] at ht
    simp at ht
    rw [hs, ht]

theorem closeFold_fst_ind (closes : List CloseEvent) :
    ∀ (conns hall hall' : List (String × Conn)),
      (closes.foldl closeStep (conns, hall)).1 =
        (closes.foldl closeStep (conns, hall')).1 := by
  induction closes with
  | nil => intro conns hall hall'; rfl
  | cons ce t ih =>
    intro conns hall hall'
    rw [List.foldl_cons, List.foldl_cons]
    cases hc : dictGet? conns (connId ce.ip ce.port) with
    | none =>
      have h1 : closeStep (conns, hall) ce = (conns, hall) := by
        unfold closeStep
        dsimp only
        rw [hc]
      have h2 : closeStep (conns, hall') ce = (conns, hall') := by
        unfold closeStep
        dsimp only
        rw [hc]
      rw [h1, h2]
      exact ih conns hall hall'
    | some conn =>
      have h1 : closeStep (conns, hall) ce =
          (dictInsert conns (connId ce.ip ce.port)
            { conn with duration := ce.time },
           dictInsert hall (connId ce.ip ce.port)
            { conn with duration := ce.time }) := by
        unfold closeStep
        dsimp only
        rw [hc]
      have h2 : closeStep (conns, hall') ce =
          (dictInsert conns (connId ce.ip ce.port)
            { conn with duration := ce.time },
           dictInsert hall' (connId ce.ip ce.port)
            { conn with duration := ce.time }) := by
        unfold closeStep
        dsimp only
        rw [hc]
      rw [h1, h2]
      exact ih _ _ _

theorem dictKeys_map_val {β : Type} (m : List (String × α)) (g : α → β) :
    dictKeys (m.map (fun p => (p.1, g p.2))) = dictKeys m := by
  unfold dictKeys
  rw [List.map_map]
  rfl

theorem closeFold_keys (closes : List CloseEvent) :
    ∀ (conns hall : List (String × Conn)),
      dictKeys ((closes.foldl closeStep (conns, hall)).1) =
        dictKeys conns := by
  induction closes with
  | nil => intro conns hall; rfl
  | cons ce t ih =>
    intro conns hall
    rw [List.foldl_cons]
    cases hc : dictGet? conns (connId ce.ip ce.port) with
    | none =>
      have h1 : closeStep (conns, hall) ce = (conns, hall) := by
        unfold closeStep
        dsimp only
        rw [hc]
      rw [h1]
      exact ih conns hall
    | some conn =>
      have h1 : closeStep (conns, hall) ce =
          (dictInsert conns (connId ce.ip ce.port)
            { conn with duration := ce.time },
           dictInsert hall (connId ce.ip ce.port)
            { conn with duration := ce.time }) := by
        unfold closeStep
        dsimp only
        rw [hc]
      rw [h1, ih _ _, dictKeys_insert,
        if_pos ((dictGet?_isSome_iff conns (connId ce.ip ce.port)).mp
          (by rw [hc]; rfl))]

theorem openFoldConns_keys_nodup (now : Nat) (cp : List Nat)
    (geoView : String → Option GeoLocation) (opens : List OpenEvent) :
    ∀ conns : List (String × Conn), (dictKeys conns).Nodup →
      (dictKeys (openFoldConns now cp geoView conns opens)).Nodup := by
  induction opens with
  | nil => intro conns h; exact h
  | cons e t ih =>
    intro conns h
    unfold openFoldConns
    rw [List.foldl_cons]
    exact ih _ (dictKeys_insert_nodup conns _ _ h)

theorem lastOpen?_eq_none {opens : List OpenEvent} {k : String}
    (h : ∀ e ∈ opens, connId e.ip e.port ≠ k) : lastOpen? opens k = none := by
  induction opens with
  | nil => rfl
  | cons e t ih =>
    rw [lastOpen?_cons,
      ih (fun e' he' => h e' (List.mem_cons_of_mem e he'))]
    rw [if_neg (h e (List.mem_cons_self e t))]

/-- Status of any working-set record is determined by its own port and
the closed-ports index. -/
theorem working_status_spec
    (api : String → Option ApiResponse) (now : Nat) (st : PassState)
    (w : Window) (sh : List OpenEvent) (k : String) (c : Conn)
    (h : dictGet? ((parse_endlessh_logs api now st w sh).2.working) k =
      some c) :
    c.status = (if c.port ∈ w.closes.map (fun ce => ce.port) then "released"
      else "trapped") := by
  rw [parse_working_get] at h
  cases ho : lastOpen? w.opens k with
  | none =>
    rw [ho] at h
    exact Option.noConfusion h
  | some e =>
    rw [ho] at h
    dsimp only at h
    have hc := Option.some.inj h
    have hkey : c.status =
        (if e.port ∈ w.closes.map (fun ce => ce.port) then "released"
         else "trapped") ∧ c.port = e.port := by
      cases hcl : lastCloseTime? w.closes k with
      | some t =>
        rw [hcl] at hc
        dsimp only at hc
        constructor
        · rw [← hc, recomputeConn_status, conn_set_duration_status]
          rfl
        · rw [← hc, recomputeConn_port, conn_set_duration_port]
          rfl
      | none =>
        rw [hcl] at hc
        dsimp only at hc
        constructor
        · rw [← hc, recomputeConn_status]
          rfl
        · rw [← hc, recomputeConn_port]
          rfl
    rw [hkey.1, hkey.2]

/-- C7 (amended): with the same log window, short window and clock,
re-running the reconciliation immediately produces an identical working
set; the total-connections counter is unchanged by the second run
provided the first run did not overflow and clear the recency set (size
at most 1000) - without that proviso the counter can drift, as the
counterexample shows.  Moreover the working set has no duplicate keys; an
open event with no close event for its key always yields a single record,
active (trapped) whenever its port is not in the closed-ports index; and
a close event whose key matches no open event of the window is ignored
(no record is synthesized for it). -/
theorem c7_idempotent_rescan
    (api : String → Option ApiResponse) (now : Nat) (st : PassState)
    (w : Window) (sh : List OpenEvent)
    (hnoclear : ((sh.foldl countStep st.counter)).seen.card ≤ 1000) :
    (parse_endlessh_logs api now
        (parse_endlessh_logs api now st w sh).1 w sh).2.working =
      (parse_endlessh_logs api now st w sh).2.working ∧
    (parse_endlessh_logs api now
        (parse_endlessh_logs api now st w sh).1 w sh).1.counter =
      (parse_endlessh_logs api now st w sh).1.counter ∧
    (dictKeys ((parse_endlessh_logs api now st w sh).2.working)).Nodup ∧
    (∀ e ∈ w.opens, ∃ c,
      dictGet? ((parse_endlessh_logs api now st w sh).2.working)
        (connId e.ip e.port) = some c ∧
      (e.port ∉ w.closes.map (fun x => x.port) → c.status = "trapped")) ∧
    (∀ ce ∈ w.closes,
      (∀ e ∈ w.opens, connId e.ip e.port ≠ connId ce.ip ce.port) →
      dictGet? ((parse_endlessh_logs api now st w sh).2.working)
        (connId ce.ip ce.port) = none) := by
  have hopen1 := openFold_spec now (w.closes.map (fun c => c.port)) api
    w.opens (lookupGeo api st.ip_locations) ([], [], st.ip_locations)
    (fun ip => rfl)
  have hopen2 := openFold_spec now (w.closes.map (fun c => c.port)) api
    w.opens (lookupGeo api st.ip_locations)
    ([], [],
      (parse_endlessh_logs api now st w sh).1.ip_locations)
    (by
      intro ip
      rw [parse_cache_eq]
      exact hopen1.2.2 ip)
  refine ⟨?_, ?_, ?_, ?_, ?_⟩
  · -- identical working sets
    rw [parse_working_eq, parse_working_eq]
    rw [closeFold_fst_ind w.closes _
      (parse_endlessh_logs api now st w sh).1.hall_of_fame st.hall_of_fame]
    rw [hopen2.1, hopen1.1]
  · -- counter unchanged on the second run
    rw [parse_counter_eq, parse_counter_eq]
    have hp1 : processShortWindow st.counter sh = sh.foldl countStep st.counter := by
      unfold processShortWindow
      dsimp only
      rw [if_neg (by omega)]
    have hsub : (logIds sh).toFinset ⊆ (sh.foldl countStep st.counter).seen := by
      rw [(countStep_fold_spec sh st.counter).1]
      exact Finset.subset_union_right
    have hfold2 : sh.foldl countStep (sh.foldl countStep st.counter) =
        sh.foldl countStep st.counter :=
      countFold_no_new sh _ hsub
    rw [hp1]
    unfold processShortWindow
    dsimp only
    rw [hfold2, if_neg (by omega)]
  · -- no duplicate keys
    rw [parse_working_eq, dictKeys_map_val, closeFold_keys, hopen1.1]
    exact openFoldConns_keys_nodup now _ _ w.opens [] List.nodup_nil
  · -- an open event always yields a record; active when its port is open
    intro e he
    have hsome := lastOpen?_isSome_of_mem he
    cases ho : lastOpen? w.opens (connId e.ip e.port) with
    | none =>
      rw [ho] at hsome
      exact absurd hsome (by decide)
    | some e0 =>
      have hget := parse_working_get api now st w sh (connId e.ip e.port)
      rw [ho] at hget
      dsimp only at hget
      refine ⟨_, hget, ?_⟩
      intro hnotin
      have hstat := working_status_spec api now st w sh _ _ hget
      have hport : (recomputeConn now
          (match lastCloseTime? w.closes (connId e.ip e.port) with
           | some t =>
             { builtConn now (w.closes.map (fun c => c.port))
                 (lookupGeo api st.ip_locations e0.ip) e0 with duration := t }
           | none =>
             builtConn now (w.closes.map (fun c => c.port))
               (lookupGeo api st.ip_locations e0.ip) e0)).port = e0.port := by
        cases hcl : lastCloseTime? w.closes (connId e.ip e.port) with
        | some t =>
          rw [recomputeConn_port, conn_set_duration_port]
          rfl
        | none =>
          rw [recomputeConn_port]
          rfl
      have hpe : e0.port = e.port :=
        (connId_inj (lastOpen?_mem ho).2).2
      rw [hstat, hport, hpe, if_neg hnotin]
  · -- a close event with no matching open event is ignored
    intro ce hce hnone
    rw [parse_working_get,
      lastOpen?_eq_none (fun e he => hnone e he)]

/-- Fixture: an empty log window. -/
def emptyWindow : Window :=
  { opens := [], closes := [] }

/-- C7, counterexample.  The claim says re-reconciling the same raw log
text twice leaves the total-connections counter unchanged on the second
run.  When the first run's 1001 distinct short-window events overflow the
recency set it is cleared (lines 288-291), and the identical second run
re-counts every line: the counter goes 1001 then 2002 instead of staying
at 1001. -/
theorem c7_counterexample_counter_drift :
    (parse_endlessh_logs noApi 1000 emptyPassState emptyWindow
      scrapeA).1.counter.total = 1001 ∧
    (parse_endlessh_logs noApi 1000
        (parse_endlessh_logs noApi 1000 emptyPassState emptyWindow
          scrapeA).1
        emptyWindow scrapeA).1.counter.total = 2002 := by
  have h1 : (parse_endlessh_logs noApi 1000 emptyPassState emptyWindow
      scrapeA).1.counter = { total := 1001, seen := ∅ } := by
    rw [parse_counter_eq]
    show processShortWindow { total := 0, seen := ∅ } scrapeA = _
    rw [scrapeA_process]
  constructor
  · rw [h1]
  · rw [parse_counter_eq, h1, scrapeA_process_general 1001]

/-- C7 witness: the amended theorem applied to a small window scraped
twice without overflowing the recency set. -/
theorem c7_idempotent_rescan_witness :
    (([dupEvent 0].foldl countStep emptyPassState.counter).seen.card ≤
      1000) ∧
    (parse_endlessh_logs noApi 1000
        (parse_endlessh_logs noApi 1000 emptyPassState c6Window
          [dupEvent 0]).1
        c6Window [dupEvent 0]).2.working =
      (parse_endlessh_logs noApi 1000 emptyPassState c6Window
        [dupEvent 0]).2.working := by
  refine ⟨by decide, ?_⟩
  exact (c7_idempotent_rescan noApi 1000 emptyPassState c6Window
    [dupEvent 0] (by decide)).1

/-! ### Claim C3 -/

/-- One iteration of the hall-of-fame deduplication loop
(lines 228-231). -/
def dedupStep (acc : List (String × (String × Conn))) (p : String × Conn) :
    List (String × (String × Conn)) :=
  match dictGet? acc p.2.ip with
  | some q =>
    if p.2.duration > q.2.duration then dictInsert acc p.2.ip p else acc
  | none => dictInsert acc p.2.ip p

theorem dedupHall_eq (hall : List (String × Conn)) :
    dedupHall hall = (hall.foldl dedupStep []).map (fun p => p.2) := rfl

theorem dictGet?_of_mem_nodup {m : List (String × α)} {k : String} {v : α}
    (hnd : (dictKeys m).Nodup) (hmem : (k, v) ∈ m) :
    dictGet? m k = some v := by
  induction m with
  | nil => exact absurd hmem (List.not_mem_nil (k, v))
  | cons p t ih =>
    rw [dictKeys_cons] at hnd
    rw [dictGet?_cons]
    rcases List.mem_cons.mp hmem with rfl | hmem2
    · rw [if_pos rfl]
    · have hk : k ∈ dictKeys t :=
        List.mem_map.mpr ⟨(k, v), hmem2, rfl⟩
      have hp : p.1 ≠ k := by
        intro hh
        exact (List.nodup_cons.mp hnd).1 (hh ▸ hk)
      rw [if_neg hp]
      exact ih (List.nodup_cons.mp hnd).2 hmem2

theorem mem_dictInsert_of_ne {m : List (String × α)} {k : String} {v : α}
    {q : String × α} (hq : q ∈ m) (hne : q.1 ≠ k) :
    q ∈ dictInsert m k v := by
  unfold dictInsert
  split
  · refine List.mem_map.mpr ⟨q, hq, ?_⟩
    rw [if_neg hne]
  · exact List.mem_append.mpr (Or.inl hq)

theorem mem_dictInsert_self (m : List (String × α)) (k : String) (v : α) :
    (k, v) ∈ dictInsert m k v :=
  mem_of_dictGet? (by rw [dictGet?_insert, if_pos rfl])

/-- Invariant carried through the deduplication fold. -/
def DedupInv (acc : List (String × (String × Conn))) : Prop :=
  (dictKeys acc).Nodup ∧ ∀ q ∈ acc, q.2.2.ip = q.1

theorem dedupStep_inv {acc : List (String × (String × Conn))}
    {p : String × Conn} (h : DedupInv acc) : DedupInv (dedupStep acc p) := by
  obtain ⟨hnd, hco⟩ := h
  unfold dedupStep
  have hins : DedupInv (dictInsert acc p.2.ip p) := by
    refine ⟨dictKeys_insert_nodup acc _ _ hnd, ?_⟩
    intro q hq
    rcases mem_dictInsert hq with rfl | hq2
    · rfl
    · exact hco q hq2
  cases hg : dictGet? acc p.2.ip with
  | some q =>
    dsimp only
    split
    · exact hins
    · exact ⟨hnd, hco⟩
  | none => exact hins

theorem dedupStep_persist {acc : List (String × (String × Conn))}
    {p : String × Conn} {k : String} {d : Rat} (hinv : DedupInv acc)
    (h : ∃ q ∈ acc, q.1 = k ∧ d ≤ q.2.2.duration) :
    ∃ q ∈ dedupStep acc p, q.1 = k ∧ d ≤ q.2.2.duration := by
  obtain ⟨q0, hq0, hq0k, hq0d⟩ := h
  unfold dedupStep
  by_cases hk : p.2.ip = k
  · have hget : dictGet? acc p.2.ip = some q0.2 := by
      rw [hk, ← hq0k]
      exact dictGet?_of_mem_nodup hinv.1 (by
        have : q0 = (q0.1, q0.2) := rfl
        rw [← this]
        exact hq0)
    rw [hget]
    dsimp only
    split
    · rename_i hgt
      refine ⟨(p.2.ip, p), mem_dictInsert_self acc p.2.ip p, hk, ?_⟩
      exact le_of_lt (lt_of_le_of_lt hq0d hgt)
    · exact ⟨q0, hq0, hq0k, hq0d⟩
  · have hne : q0.1 ≠ p.2.ip := by
      rw [hq0k]
      exact fun hh => hk hh.symm
    cases hg : dictGet? acc p.2.ip with
    | some q =>
      dsimp only
      split
      · exact ⟨q0, mem_dictInsert_of_ne hq0 hne, hq0k, hq0d⟩
      · exact ⟨q0, hq0, hq0k, hq0d⟩
    | none => exact ⟨q0, mem_dictInsert_of_ne hq0 hne, hq0k, hq0d⟩

theorem dedupStep_new {acc : List (String × (String × Conn))}
    (p : String × Conn) :
    ∃ q ∈ dedupStep acc p, q.1 = p.2.ip ∧ p.2.duration ≤ q.2.2.duration := by
  unfold dedupStep
  cases hg : dictGet? acc p.2.ip with
  | some q =>
    dsimp only
    split
    · rename_i hgt
      exact ⟨(p.2.ip, p), mem_dictInsert_self acc p.2.ip p, rfl, le_refl _⟩
    · rename_i hngt
      exact ⟨(p.2.ip, q), mem_of_dictGet? hg, rfl, le_of_not_lt hngt⟩
  | none =>
    exact ⟨(p.2.ip, p), mem_dictInsert_self acc p.2.ip p, rfl, le_refl _⟩

theorem dedupFold_inv (hall : List (String × Conn)) :
    ∀ acc, DedupInv acc → DedupInv (hall.foldl dedupStep acc) := by
  induction hall with
  | nil => intro acc h; exact h
  | cons p t ih =>
    intro acc h
    rw [List.foldl_cons]
    exact ih _ (dedupStep_inv h)

theorem dedupFold_persist (hall : List (String × Conn)) :
    ∀ acc, DedupInv acc → ∀ (k : String) (d : Rat),
      (∃ q ∈ acc, q.1 = k ∧ d ≤ q.2.2.duration) →
      ∃ q ∈ hall.foldl dedupStep acc, q.1 = k ∧ d ≤ q.2.2.duration := by
  induction hall with
  | nil => intro acc _ k d h; exact h
  | cons p t ih =>
    intro acc hinv k d h
    rw [List.foldl_cons]
    exact ih _ (dedupStep_inv hinv) k d (dedupStep_persist hinv h)

theorem dedupFold_cover (hall : List (String × Conn)) :
    ∀ acc, DedupInv acc → ∀ p ∈ hall,
      ∃ q ∈ hall.foldl dedupStep acc, q.1 = p.2.ip ∧
        p.2.duration ≤ q.2.2.duration := by
  induction hall with
  | nil => intro acc _ p hp; exact absurd hp (List.not_mem_nil p)
  | cons p0 t ih =>
    intro acc hinv p hp
    rw [List.foldl_cons]
    rcases List.mem_cons.mp hp with rfl | hp2
    · exact dedupFold_persist t _ (dedupStep_inv hinv) p.2.ip p.2.duration
        (dedupStep_new p)
    · exact ih _ (dedupStep_inv hinv) p hp2

theorem mem_dedupStep {acc : List (String × (String × Conn))}
    {p : String × Conn} {q : String × (String × Conn)}
    (h : q ∈ dedupStep acc p) : q = (p.2.ip, p) ∨ q ∈ acc := by
  unfold dedupStep at h
  split at h
  · split at h
    · rcases mem_dictInsert h with h1 | h1
      · exact Or.inl h1
      · exact Or.inr h1
    · exact Or.inr h
  · rcases mem_dictInsert h with h1 | h1
    · exact Or.inl h1
    · exact Or.inr h1

theorem dedupFold_values (H : List (String × Conn)) :
    ∀ hall : List (String × Conn), (∀ p ∈ hall, p ∈ H) →
    ∀ acc, (∀ q ∈ acc, q.2 ∈ H) →
      ∀ q ∈ hall.foldl dedupStep acc, q.2 ∈ H := by
  intro hall
  induction hall with
  | nil => intro _ acc hacc q hq; exact hacc q hq
  | cons p0 t ih =>
    intro hsub acc hacc q hq
    rw [List.foldl_cons] at hq
    refine ih (fun p hp => hsub p (List.mem_cons_of_mem p0 hp)) _ ?_ q hq
    intro q2 hq2
    rcases mem_dedupStep hq2 with rfl | hq3
    · exact hsub p0 (List.mem_cons_self p0 t)
    · exact hacc q2 hq3

/-- Fixture for C3: a persisted leaderboard entry for 1.2.3.4:10 with
duration 100 seconds. -/
def cexStoredConn : Conn :=
  { ip := "1.2.3.4", port := 10, fd := 7, country := "Unknown",
    city := "Unknown", country_code := "XX", started := 20,
    duration := 100, status := "released" }

/-- Fixture for C3: process state holding the persisted entry. -/
def cexStateC3 : PassState :=
  { hall_of_fame := [("1.2.3.4:10", cexStoredConn)], ip_locations := [],
    counter := { total := 0, seen := ∅ } }

/-- Fixture for C3: the same connection id re-appears with a close event
reporting only 50 seconds. -/
def cexWindowC3 : Window :=
  { opens := [{ ip := "1.2.3.4", port := 10, fd := 7, nActive := 1,
                nTotal := 1, ts := some 50 }],
    closes := [{ ip := "1.2.3.4", port := 10, fd := 7, time := 50 }] }

/-- C3, counterexample.  The claim says that after the merge/deduplication
step the surviving entry's duration equals the maximum among all
candidates INCLUDING any previously stored entry.  The insert step of
lines 212-215 keys the hall of fame by connection id, so a new candidate
with the same id as a stored entry overwrites it BEFORE deduplication:
with a stored 100-second entry for 1.2.3.4:10 and a fresh 50-second close
for the same id, the merged leaderboard keeps duration 50, not the
maximum 100. -/
theorem c3_counterexample_stored_entry_overwritten :
    ((dictGet? (parse_endlessh_logs noApi 1000 cexStateC3 cexWindowC3
        []).1.hall_of_fame "1.2.3.4:10").map Conn.duration = some 50) ∧
    ((dictGet? cexStateC3.hall_of_fame "1.2.3.4:10").map Conn.duration =
      some 100) ∧
    ¬ ((50 : Rat) = 100) := by
  refine ⟨by decide, by decide, by decide⟩

theorem dedupHall_ips_nodup (hall : List (String × Conn)) :
    ((dedupHall hall).map (fun p => p.2.ip)).Nodup := by
  have hinv0 : DedupInv ([] : List (String × (String × Conn))) :=
    ⟨List.nodup_nil, fun q hq => absurd hq (List.not_mem_nil q)⟩
  have hinvF := dedupFold_inv hall [] hinv0
  rw [dedupHall_eq, List.map_map]
  show (List.map (fun q : String × (String × Conn) => q.2.2.ip)
    (List.foldl dedupStep [] hall)).Nodup
  rw [List.map_congr_left (fun q hq => hinvF.2 q hq)]
  exact hinvF.1

theorem dedupHall_cover (hall : List (String × Conn)) :
    ∀ p ∈ hall, ∃ q ∈ dedupHall hall, q.2.ip = p.2.ip ∧
      p.2.duration ≤ q.2.duration := by
  have hinv0 : DedupInv ([] : List (String × (String × Conn))) :=
    ⟨List.nodup_nil, fun q hq => absurd hq (List.not_mem_nil q)⟩
  have hinvF := dedupFold_inv hall [] hinv0
  intro p hp
  obtain ⟨q, hq, hqk, hqd⟩ := dedupFold_cover hall [] hinv0 p hp
  rw [dedupHall_eq]
  refine ⟨q.2, List.mem_map.mpr ⟨q, hq, rfl⟩, ?_, hqd⟩
  rw [hinvF.2 q hq]
  exact hqk

theorem dedupHall_subset (hall : List (String × Conn)) :
    ∀ q ∈ dedupHall hall, q ∈ hall := by
  intro q hq
  rw [dedupHall_eq] at hq
  obtain ⟨q1, hq1, rfl⟩ := List.mem_map.mp hq
  exact dedupFold_values hall hall (fun p hp => hp) []
    (fun q2 hq2 => absurd hq2 (List.not_mem_nil q2)) q1 hq1

theorem dedupHall_dominates (hall : List (String × Conn)) :
    ∀ q ∈ dedupHall hall, ∀ p ∈ hall, p.2.ip = q.2.ip →
      p.2.duration ≤ q.2.duration := by
  have hinv0 : DedupInv ([] : List (String × (String × Conn))) :=
    ⟨List.nodup_nil, fun q hq => absurd hq (List.not_mem_nil q)⟩
  have hinvF := dedupFold_inv hall [] hinv0
  intro q hq p hp hpip
  rw [dedupHall_eq] at hq
  obtain ⟨q1, hq1, rfl⟩ := List.mem_map.mp hq
  obtain ⟨q2, hq2, hq2k, hq2d⟩ := dedupFold_cover hall [] hinv0 p hp
  have hkeq : q2.1 = q1.1 := by
    rw [hq2k, ← hinvF.2 q1 hq1]
    exact hpip
  have hqq : q2 = q1 :=
    List.inj_on_of_nodup_map hinvF.1 hq2 hq1 hkeq
  rw [hqq] at hq2d
  exact hq2d

/-- C3 (amended): after the deduplication step (lines 225-234) exactly
one entry per origin address remains - the deduplicated list carries
pairwise distinct origins and covers every origin of its input - and each
surviving entry is one of the post-insert entries whose duration is
greatest among the post-insert entries for its origin.  (The input of the
deduplication is the hall of fame AFTER the insert step, in which a
candidate replaces any previously stored entry with the same connection
id; the stored entry's duration only participates when its connection id
is not overwritten, as the counterexample shows.) -/
theorem c3_dedup_unique_origin_max (hall : List (String × Conn)) :
    ((dedupHall hall).map (fun p => p.2.ip)).Nodup ∧
    (∀ p ∈ hall, ∃ q ∈ dedupHall hall, q.2.ip = p.2.ip ∧
      p.2.duration ≤ q.2.duration) ∧
    (∀ q ∈ dedupHall hall, q ∈ hall ∧
      ∀ p ∈ hall, p.2.ip = q.2.ip → p.2.duration ≤ q.2.duration) :=
  ⟨dedupHall_ips_nodup hall, dedupHall_cover hall,
    fun q hq => ⟨dedupHall_subset hall q hq,
      dedupHall_dominates hall q hq⟩⟩

/-- Fixture for C3's witness: two terminated candidates sharing the
origin 5.6.7.8 with durations 5 and 9. -/
def hallW : List (String × Conn) :=
  [("5.6.7.8:1",
    { ip := "5.6.7.8", port := 1, fd := 1, country := "Unknown",
      city := "Unknown", country_code := "XX", started := 0,
      duration := 5, status := "released" }),
   ("5.6.7.8:2",
    { ip := "5.6.7.8", port := 2, fd := 2, country := "Unknown",
      city := "Unknown", country_code := "XX", started := 0,
      duration := 9, status := "released" })]

/-- C3 witness: the amended theorem applied to two candidates sharing an
origin. -/
theorem c3_dedup_unique_origin_max_witness :
    (hallW.head? = some ("5.6.7.8:1",
      { ip := "5.6.7.8", port := 1, fd := 1, country := "Unknown",
        city := "Unknown", country_code := "XX", started := 0,
        duration := 5, status := "released" })) ∧
    (∃ q ∈ dedupHall hallW, q.2.ip = "5.6.7.8" ∧ (5 : Rat) ≤ q.2.duration) := by
  constructor
  · rfl
  · exact (c3_dedup_unique_origin_max hallW).2.1 _
      (List.mem_cons_self _ _)

/-! ### Claim C4 -/

theorem hallLe_trans : ∀ a b c : String × Conn, hallLe a b = true →
    hallLe b c = true → hallLe a c = true := by
  intro a b c hab hbc
  simp only [hallLe, decide_eq_true_eq] at hab hbc ⊢
  exact le_trans hbc hab

theorem hallLe_total : ∀ a b : String × Conn,
    (hallLe a b || hallLe b a) = true := by
  intro a b
  simp only [hallLe]
  rcases le_total a.2.duration b.2.duration with h | h
  · simp [h]
  · simp [h]

theorem sortHallDesc_perm (hall : List (String × Conn)) :
    (sortHallDesc hall).Perm hall :=
  List.mergeSort_perm hall hallLe

theorem sortHallDesc_sorted (hall : List (String × Conn)) :
    List.Pairwise (fun a b : String × Conn =>
      b.2.duration ≤ a.2.duration) (sortHallDesc hall) := by
  have h := List.sorted_mergeSort hallLe_trans hallLe_total hall
  refine h.imp ?_
  intro a b hab
  simpa [hallLe] using hab

theorem trimHall_le (hall : List (String × Conn)) :
    (trimHall hall).length ≤ 100 := by
  unfold trimHall
  split
  · rw [List.length_take]
    exact min_le_left _ _
  · rename_i h
    omega

theorem trimHall_trunc (hall : List (String × Conn))
    (h : 100 < hall.length) :
    (trimHall hall).length = 100 ∧
    List.Pairwise (fun a b : String × Conn =>
      b.2.duration ≤ a.2.duration) (trimHall hall) ∧
    (∀ q ∈ trimHall hall, q ∈ hall) ∧
    (∀ p ∈ hall, p ∉ trimHall hall →
      ∀ q ∈ trimHall hall, p.2.duration ≤ q.2.duration) := by
  have hlen : (sortHallDesc hall).length = hall.length :=
    (sortHallDesc_perm hall).length_eq
  have htrim : trimHall hall = (sortHallDesc hall).take 100 := by
    unfold trimHall
    rw [if_pos h]
  rw [htrim]
  refine ⟨?_, ?_, ?_, ?_⟩
  · rw [List.length_take, hlen]
    omega
  · exact (sortHallDesc_sorted hall).sublist (List.take_sublist 100 _)
  · intro q hq
    exact (sortHallDesc_perm hall).subset (List.mem_of_mem_take hq)
  · intro p hp hnp q hq
    have hpsort : p ∈ (sortHallDesc hall).take 100 ++
        (sortHallDesc hall).drop 100 := by
      rw [List.take_append_drop]
      exact (sortHallDesc_perm hall).mem_iff.mpr hp
    have hpdrop : p ∈ (sortHallDesc hall).drop 100 := by
      rcases List.mem_append.mp hpsort with h1 | h1
      · exact absurd h1 hnp
      · exact h1
    have hpw : List.Pairwise (fun a b : String × Conn =>
        b.2.duration ≤ a.2.duration)
        ((sortHallDesc hall).take 100 ++ (sortHallDesc hall).drop 100) := by
      rw [List.take_append_drop]
      exact sortHallDesc_sorted hall
    exact (List.pairwise_append.mp hpw).2.2 q hq p hpdrop

/-- C4: after every reconciliation pass the persisted leaderboard holds
at most 100 entries; and whenever the truncation of lines 236-241 fires
(more than 100 entries) the kept list has exactly 100 entries, is sorted
by duration descending, consists of input entries, and every dropped
entry's duration is at most every kept entry's duration - the kept
entries are the top 100 by duration. -/
theorem c4_leaderboard_bound_and_truncation :
    (∀ (api : String → Option ApiResponse) (now : Nat) (st : PassState)
      (w : Window) (sh : List OpenEvent),
      ((parse_endlessh_logs api now st w sh).1.hall_of_fame).length ≤
        100) ∧
    (∀ hall : List (String × Conn),
      (trimHall hall).length ≤ 100 ∧
      (100 < hall.length →
        (trimHall hall).length = 100 ∧
        List.Pairwise (fun a b : String × Conn =>
          b.2.duration ≤ a.2.duration) (trimHall hall) ∧
        (∀ q ∈ trimHall hall, q ∈ hall) ∧
        (∀ p ∈ hall, p ∉ trimHall hall →
          ∀ q ∈ trimHall hall, p.2.duration ≤ q.2.duration))) := by
  constructor
  · intro api now st w sh
    rw [parse_hall_eq]
    exact trimHall_le _
  · intro hall
    exact ⟨trimHall_le hall, trimHall_trunc hall⟩

/-- Fixture for C4's scenario: the i-th of 150 distinct-origin terminated
candidates, with duration i seconds. -/
def conn150 (i : Nat) : Conn :=
  { ip := "ip" ++ toString i, port := i, fd := 1, country := "Unknown",
    city := "Unknown", country_code := "XX", started := 0,
    duration := (i : Rat), status := "released" }

/-- Fixture for C4's scenario: 150 distinct-origin terminated
candidates. -/
def hall150 : List (String × Conn) :=
  (List.range 150).map (fun i => (connId ("ip" ++ toString i) i, conn150 i))

/-- C4 witness: 150 distinct-origin candidates exceed the capacity and
the trimmed leaderboard has exactly 100 entries. -/
theorem c4_leaderboard_witness :
    100 < hall150.length ∧ (trimHall hall150).length = 100 := by
  have hlen : 100 < hall150.length := by
    show 100 < ((List.range 150).map _).length
    rw [List.length_map, List.length_range]
    norm_num
  exact ⟨hlen,
    ((c4_leaderboard_bound_and_truncation.2 hall150).2 hlen).1⟩

/-! ### Claim C8 -/

theorem mapM_option_eq_none {β γ2 : Type} (f : β → Option γ2) (l : List β)
    (b : β) (hb : b ∈ l) (hf : f b = none) : l.mapM f = none := by
  induction l with
  | nil => exact absurd hb (List.not_mem_nil b)
  | cons x t ih =>
    rw [List.mapM_cons]
    rcases List.mem_cons.mp hb with rfl | hb2
    · rw [hf]
      rfl
    · rw [ih hb2]
      cases hx : f x with
      | none => rfl
      | some y => rfl

/-- C8: loading the persisted leaderboard from a missing file, an
unparseable file, or a file with an unparseable timestamp yields an empty
leaderboard rather than an error (lines 32-52); and saving never touches
the in-memory leaderboard, whether or not the write succeeds (lines
54-73). -/
theorem c8_persistence_error_handling :
    (∀ parseIso : String → Option Nat,
      load_hall_of_fame parseIso none = []) ∧
    (∀ parseIso : String → Option Nat,
      load_hall_of_fame parseIso (some (Except.error ())) = []) ∧
    (∀ (parseIso : String → Option Nat)
      (raw : List (String × SavedConn)) (k : String) (sc : SavedConn),
      (k, sc) ∈ raw → parseIso sc.started = none →
      load_hall_of_fame parseIso (some (Except.ok raw)) = []) ∧
    (∀ (iso : Nat → String) (hall : List (String × Conn)) (writeOk : Bool),
      (save_hall_of_fame iso hall writeOk).2 = hall) := by
  refine ⟨fun _ => rfl, fun _ => rfl, ?_, fun _ _ _ => rfl⟩
  intro parseIso raw k sc hmem hfail
  unfold load_hall_of_fame
  dsimp only
  rw [mapM_option_eq_none _ raw (k, sc) hmem (by simp [hfail])]

/-- Fixture for C8: a saved record whose timestamp string no parser
accepts. -/
def savedBad : SavedConn :=
  { ip := "1.2.3.4", port := 1, fd := 1, country := "Unknown",
    city := "Unknown", country_code := "XX", started := "not-a-date",
    duration := 3, status := "released" }

/-- C8 witness: the corrupt-entry case applied to a concrete one-entry
file whose timestamp fails to parse. -/
theorem c8_persistence_error_handling_witness :
    (("k1", savedBad) ∈ [("k1", savedBad)]) ∧
    ((fun _ : String => (none : Option Nat)) savedBad.started = none) ∧
    load_hall_of_fame (fun _ => none)
      (some (Except.ok [("k1", savedBad)])) = [] := by
  refine ⟨List.mem_cons_self _ _, rfl, ?_⟩
  exact c8_persistence_error_handling.2.2.1 (fun _ => none)
    [("k1", savedBad)] "k1" savedBad (List.mem_cons_self _ _) rfl

/-! ### Claim C9 -/

theorem get_geoip_data_uncached (cache : List (String × GeoLocation))
    (ip : String) (resp : Option ApiResponse)
    (h : dictGet? cache ip = none) :
    get_geoip_data cache ip resp =
      match apiResult resp with
      | some g => (g, dictInsert cache ip g)
      | none => (unknownGeo, cache) := by
  unfold get_geoip_data apiResult
  rw [h]
  cases resp with
  | none => rfl
  | some data =>
    dsimp only
    by_cases hs : data.status = "success"
    · rw [if_pos hs, if_pos hs]
    · rw [if_neg hs, if_neg hs]

theorem lookupGeo_of_cached {api : String → Option ApiResponse}
    {cache : List (String × GeoLocation)} {ip : String} {g : GeoLocation}
    (h : dictGet? cache ip = some g) : lookupGeo api cache ip = some g := by
  rw [lookupGeo_spec, h]

theorem conn_set_duration_country (c : Conn) (t : Rat) :
    ({ c with duration := t } : Conn).country = c.country := by
  cases c
  rfl

theorem conn_set_duration_city (c : Conn) (t : Rat) :
    ({ c with duration := t } : Conn).city = c.city := by
  cases c
  rfl

theorem conn_set_duration_ccode (c : Conn) (t : Rat) :
    ({ c with duration := t } : Conn).country_code = c.country_code := by
  cases c
  rfl

theorem recomputeConn_country (now : Nat) (c : Conn) :
    (recomputeConn now c).country = c.country := by
  unfold recomputeConn
  split
  · exact conn_set_duration_country c _
  · rfl

theorem recomputeConn_city (now : Nat) (c : Conn) :
    (recomputeConn now c).city = c.city := by
  unfold recomputeConn
  split
  · exact conn_set_duration_city c _
  · rfl

theorem recomputeConn_ccode (now : Nat) (c : Conn) :
    (recomputeConn now c).country_code = c.country_code := by
  unfold recomputeConn
  split
  · exact conn_set_duration_ccode c _
  · rfl

/-- C9: a failed, timed-out or non-success geolocation lookup returns the
Unknown placeholder and leaves the cache unchanged (the placeholder is
never inserted); only successful lookups are memoized; for an address
that is uncached and whose lookup fails throughout the pass, the cache
still lacks it after the pass (so the next pass retries) and every
working-set record for it carries the default location labels. -/
theorem c9_failed_lookup_not_cached :
    (∀ (cache : List (String × GeoLocation)) (ip : String)
      (resp : Option ApiResponse), dictGet? cache ip = none →
      apiResult resp = none →
      get_geoip_data cache ip resp = (unknownGeo, cache)) ∧
    (∀ (cache : List (String × GeoLocation)) (ip : String)
      (resp : Option ApiResponse) (g : GeoLocation),
      dictGet? cache ip = none → apiResult resp = some g →
      get_geoip_data cache ip resp = (g, dictInsert cache ip g)) ∧
    (∀ (api : String → Option ApiResponse) (now : Nat) (st : PassState)
      (w : Window) (sh : List OpenEvent) (ip : String),
      dictGet? st.ip_locations ip = none → apiResult (api ip) = none →
      dictGet? ((parse_endlessh_logs api now st w sh).1.ip_locations) ip =
        none ∧
      (∀ (k : String) (c : Conn),
        dictGet? ((parse_endlessh_logs api now st w sh).2.working) k =
          some c → c.ip = ip →
        c.country = "Unknown" ∧ c.city = "Unknown" ∧
          c.country_code = "XX")) := by
  refine ⟨?_, ?_, ?_⟩
  · intro cache ip resp h ha
    rw [get_geoip_data_uncached cache ip resp h, ha]
  · intro cache ip resp g h ha
    rw [get_geoip_data_uncached cache ip resp h, ha]
  · intro api now st w sh ip hnc hfail
    have hlu : lookupGeo api st.ip_locations ip = none := by
      rw [lookupGeo_spec, hnc]
      exact hfail
    have hview := (openFold_spec now (w.closes.map (fun c => c.port)) api
      w.opens (lookupGeo api st.ip_locations) ([], [], st.ip_locations)
      (fun i => rfl)).2.2
    constructor
    · rw [parse_cache_eq]
      cases hg : dictGet? ((w.opens.foldl
          (openStep now (w.closes.map (fun c => c.port)) api)
          (([], [], st.ip_locations) : OpenAcc)).2.2) ip with
      | none => rfl
      | some g =>
        have := @lookupGeo_of_cached api _ ip _ hg
        rw [hview ip, hlu] at this
        exact Option.noConfusion this
    · intro k c hget hip
      rw [parse_working_get] at hget
      cases ho : lastOpen? w.opens k with
      | none =>
        rw [ho] at hget
        exact Option.noConfusion hget
      | some e =>
        rw [ho] at hget
        dsimp only at hget
        have hc := Option.some.inj hget
        have hipe : c.ip = e.ip := by
          cases hcl : lastCloseTime? w.closes k with
          | some t =>
            rw [hcl] at hc
            dsimp only at hc
            rw [← hc, recomputeConn_ip, conn_set_duration_ip]
            rfl
          | none =>
            rw [hcl] at hc
            dsimp only at hc
            rw [← hc, recomputeConn_ip]
            rfl
        have hlue : lookupGeo api st.ip_locations e.ip = none := by
          rw [← hipe, hip]
          exact hlu
        have hfields : c.country = (builtConn now
              (w.closes.map (fun x => x.port))
              (lookupGeo api st.ip_locations e.ip) e).country ∧
            c.city = (builtConn now (w.closes.map (fun x => x.port))
              (lookupGeo api st.ip_locations e.ip) e).city ∧
            c.country_code = (builtConn now
              (w.closes.map (fun x => x.port))
              (lookupGeo api st.ip_locations e.ip) e).country_code := by
          cases hcl : lastCloseTime? w.closes k with
          | some t =>
            rw [hcl] at hc
            dsimp only at hc
            refine ⟨?_, ?_, ?_⟩
            · rw [← hc, recomputeConn_country, conn_set_duration_country]
            · rw [← hc, recomputeConn_city, conn_set_duration_city]
            · rw [← hc, recomputeConn_ccode, conn_set_duration_ccode]
          | none =>
            rw [hcl] at hc
            dsimp only at hc
            refine ⟨?_, ?_, ?_⟩
            · rw [← hc, recomputeConn_country]
            · rw [← hc, recomputeConn_city]
            · rw [← hc, recomputeConn_ccode]
        obtain ⟨hco, hci, hcc⟩ := hfields
        rw [hco, hci, hcc, hlue]
        refine ⟨?_, ?_, rfl⟩
        · show stripQuotes "Unknown" = "Unknown"
          decide
        · show stripQuotes "Unknown" = "Unknown"
          decide

/-- Fixture for C9: one open event from the address 8.8.8.8 whose lookup
fails. -/
def c9Window : Window :=
  { opens := [{ ip := "8.8.8.8", port := 5, fd := 1, nActive := 1,
                nTotal := 1, ts := some 3 }],
    closes := [] }

/-- C9 witness: the pass-level part applied to the failing fixture. -/
theorem c9_failed_lookup_not_cached_witness :
    dictGet? emptyPassState.ip_locations "8.8.8.8" = none ∧
    apiResult (noApi "8.8.8.8") = none ∧
    dictGet? ((parse_endlessh_logs noApi 1000 emptyPassState c9Window
      []).1.ip_locations) "8.8.8.8" = none := by
  refine ⟨rfl, rfl, ?_⟩
  exact (c9_failed_lookup_not_cached.2.2 noApi 1000 emptyPassState
    c9Window [] "8.8.8.8" rfl rfl).1

/-! ### Claim C10 -/

theorem dictKeys_insert_mem (m : List (String × α)) (kk : String) (v : α)
    (k : String) :
    k ∈ dictKeys (dictInsert m kk v) ↔ (k ∈ dictKeys m ∨ k = kk) := by
  rw [dictKeys_insert]
  by_cases h : kk ∈ dictKeys m
  · rw [if_pos h]
    constructor
    · exact Or.inl
    · rintro (h1 | rfl)
      · exact h1
      · exact h
  · rw [if_neg h]
    rw [List.mem_append]
    constructor
    · rintro (h1 | h1)
      · exact Or.inl h1
      · exact Or.inr (by simpa using h1)
    · rintro (h1 | rfl)
      · exact Or.inl h1
      · exact Or.inr (by simp)

theorem openFoldPerIp_mem (opens : List OpenEvent) :
    ∀ (perIp : List (String × Nat)) (k : String),
      k ∈ dictKeys (openFoldPerIp perIp opens) ↔
        (k ∈ dictKeys perIp ∨ k ∈ opens.map (fun e => e.ip)) := by
  induction opens with
  | nil =>
    intro perIp k
    simp [openFoldPerIp]
  | cons e t ih =>
    intro perIp k
    unfold openFoldPerIp
    rw [List.foldl_cons]
    show k ∈ dictKeys (openFoldPerIp _ t) ↔ _
    rw [ih _ k, dictKeys_insert_mem, List.map_cons, List.mem_cons]
    tauto

theorem openFoldPerIp_nodup (opens : List OpenEvent) :
    ∀ perIp : List (String × Nat), (dictKeys perIp).Nodup →
      (dictKeys (openFoldPerIp perIp opens)).Nodup := by
  induction opens with
  | nil => intro perIp h; exact h
  | cons e t ih =>
    intro perIp h
    unfold openFoldPerIp
    rw [List.foldl_cons]
    exact ih _ (dictKeys_insert_nodup perIp _ _ h)

theorem nodup_keys_toFinset_card {m : List (String × α)}
    (h : (dictKeys m).Nodup) :
    m.length = (dictKeys m).toFinset.card := by
  rw [List.toFinset_card_of_nodup h]
  unfold dictKeys
  rw [List.length_map]

/-- Per-country totals are exactly the sums of the per-address counts of
the addresses mapped to that country. -/
theorem perCountry_spec (cache : List (String × GeoLocation))
    (perIp : List (String × Nat)) :
    ∀ (acc : List (String × Nat)) (ctry : String),
      (dictGet? (perIp.foldl
        (fun acc2 p =>
          let c2 := countryOf cache p.1
          dictInsert acc2 c2 ((dictGet? acc2 c2).getD 0 + p.2)) acc)
          ctry).getD 0 =
        (dictGet? acc ctry).getD 0 +
        ((perIp.filter
          (fun p => countryOf cache p.1 = ctry)).map (fun p => p.2)).sum := by
  induction perIp with
  | nil =>
    intro acc ctry
    simp
  | cons p t ih =>
    intro acc ctry
    rw [List.foldl_cons]
    show (dictGet? (t.foldl _ _) ctry).getD 0 = _
    rw [ih _ ctry]
    by_cases hc : countryOf cache p.1 = ctry
    · rw [List.filter_cons_of_pos (by simpa using hc), List.map_cons,
        List.sum_cons]
      show (dictGet? (dictInsert acc (countryOf cache p.1)
        ((dictGet? acc (countryOf cache p.1)).getD 0 + p.2)) ctry).getD 0 +
        _ = _
      rw [dictGet?_insert, if_pos hc.symm, hc]
      dsimp only [Option.getD]
      omega
    · rw [List.filter_cons_of_neg (by simpa using hc)]
      show (dictGet? (dictInsert acc (countryOf cache p.1)
        ((dictGet? acc (countryOf cache p.1)).getD 0 + p.2)) ctry).getD 0 +
        _ = _
      rw [dictGet?_insert, if_neg (fun hh => hc hh.symm)]

theorem connectionsPerCountry_spec (cache : List (String × GeoLocation))
    (perIp : List (String × Nat)) (ctry : String) :
    (dictGet? (connectionsPerCountry cache perIp) ctry).getD 0 =
      ((perIp.filter
        (fun p => countryOf cache p.1 = ctry)).map (fun p => p.2)).sum := by
  unfold connectionsPerCountry
  rw [perCountry_spec cache perIp [] ctry]
  simp [dictGet?]

theorem foldl_max_init (rest : List Rat) : ∀ a : Rat, a ≤ rest.foldl max a := by
  induction rest with
  | nil => intro a; exact le_refl a
  | cons x t ih =>
    intro a
    rw [List.foldl_cons]
    exact le_trans (le_max_left a x) (ih (max a x))

theorem foldl_max_mem (rest : List Rat) :
    ∀ (a d : Rat), d ∈ rest → d ≤ rest.foldl max a := by
  induction rest with
  | nil => intro a d hd; exact absurd hd (List.not_mem_nil d)
  | cons x t ih =>
    intro a d hd
    rw [List.foldl_cons]
    rcases List.mem_cons.mp hd with rfl | hd2
    · exact le_trans (le_max_right a d) (foldl_max_init t (max a d))
    · exact ih (max a x) d hd2

theorem mem_le_listMax (durs : List Rat) (d : Rat) :
    d ∈ durs →
    d ≤ (match durs with
         | [] => 0
         | x :: rest => rest.foldl max x) := by
  cases durs with
  | nil => exact fun hd => absurd hd (List.not_mem_nil d)
  | cons x rest =>
    intro hd
    rcases List.mem_cons.mp hd with rfl | hd2
    · exact foldl_max_init rest d
    · exact foldl_max_mem rest x d hd2

theorem dict_inj_of_nodup {m : List (String × α)}
    (hnd : (dictKeys m).Nodup) {q1 q2 : String × α} (h1 : q1 ∈ m)
    (h2 : q2 ∈ m) (hk : q1.1 = q2.1) : q1 = q2 :=
  List.inj_on_of_nodup_map hnd h1 h2 hk

theorem closeFold_hall_keys_nodup (closes : List CloseEvent) :
    ∀ (conns hall : List (String × Conn)), (dictKeys hall).Nodup →
      (dictKeys ((closes.foldl closeStep (conns, hall)).2)).Nodup := by
  induction closes with
  | nil => intro conns hall h; exact h
  | cons ce t ih =>
    intro conns hall h
    rw [List.foldl_cons]
    cases hc : dictGet? conns (connId ce.ip ce.port) with
    | none =>
      have h1 : closeStep (conns, hall) ce = (conns, hall) := by
        unfold closeStep
        dsimp only
        rw [hc]
      rw [h1]
      exact ih conns hall h
    | some conn =>
      have h1 : closeStep (conns, hall) ce =
          (dictInsert conns (connId ce.ip ce.port)
            { conn with duration := ce.time },
           dictInsert hall (connId ce.ip ce.port)
            { conn with duration := ce.time }) := by
        unfold closeStep
        dsimp only
        rw [hc]
      rw [h1]
      exact ih _ _ (dictKeys_insert_nodup hall _ _ h)

theorem dedupHall_keys_nodup {hall : List (String × Conn)}
    (hnd : (dictKeys hall).Nodup) :
    (dictKeys (dedupHall hall)).Nodup := by
  have hips := dedupHall_ips_nodup hall
  have helems : (dedupHall hall).Nodup := List.Nodup.of_map _ hips
  refine List.Nodup.map_on ?_ helems
  intro x hx y hy hxy
  exact dict_inj_of_nodup hnd (dedupHall_subset hall x hx)
    (dedupHall_subset hall y hy) hxy

theorem trimHall_keys_nodup {hall : List (String × Conn)}
    (hnd : (dictKeys hall).Nodup) :
    (dictKeys (trimHall hall)).Nodup := by
  unfold trimHall
  split
  · unfold dictKeys
    rw [List.map_take]
    refine List.Nodup.sublist (List.take_sublist _ _) ?_
    exact ((sortHallDesc_perm hall).map (fun p => p.1)).nodup_iff.mpr
      (show (List.map (fun p : String × Conn => p.1) hall).Nodup from hnd)
  · exact hnd

theorem trimHall_subset (hall : List (String × Conn)) :
    ∀ q ∈ trimHall hall, q ∈ hall := by
  unfold trimHall
  split
  · intro q hq
    exact (sortHallDesc_perm hall).subset (List.mem_of_mem_take hq)
  · intro q hq
    exact hq

theorem foldl_dictInsert_get_not_mem (l : List (String × Conn)) :
    ∀ (acc : List (String × Conn)) (k : String), k ∉ dictKeys l →
      dictGet? (l.foldl (fun a p => dictInsert a p.1 p.2) acc) k =
        dictGet? acc k := by
  induction l with
  | nil => intro acc k _; rfl
  | cons p t ih =>
    intro acc k hk
    rw [dictKeys_cons, List.mem_cons] at hk
    push_neg at hk
    rw [List.foldl_cons, ih _ k hk.2, dictGet?_insert, if_neg hk.1]

theorem foldl_dictInsert_get (l : List (String × Conn)) :
    ∀ (acc : List (String × Conn)) (k : String) (c : Conn),
      (dictKeys l).Nodup → (k, c) ∈ l →
      dictGet? (l.foldl (fun a p => dictInsert a p.1 p.2) acc) k =
        some c := by
  induction l with
  | nil => intro acc k c _ hmem; exact absurd hmem (List.not_mem_nil _)
  | cons p t ih =>
    intro acc k c hnd hmem
    rw [dictKeys_cons] at hnd
    rw [List.foldl_cons]
    rcases List.mem_cons.mp hmem with rfl | hmem2
    · rw [foldl_dictInsert_get_not_mem t _ k (List.nodup_cons.mp hnd).1,
        dictGet?_insert, if_pos rfl]
    · exact ih _ k c (List.nodup_cons.mp hnd).2 hmem2

theorem parse_hall_keys_nodup (api : String → Option ApiResponse)
    (now : Nat) (st : PassState) (w : Window) (sh : List OpenEvent)
    (hnd : (dictKeys st.hall_of_fame).Nodup) :
    (dictKeys ((parse_endlessh_logs api now st w sh).1.hall_of_fame)).Nodup := by
  rw [parse_hall_eq]
  exact trimHall_keys_nodup (dedupHall_keys_nodup
    (closeFold_hall_keys_nodup w.closes _ _ hnd))

/-- C10: the per-origin rollup, the distinct-origin count and the
per-country totals are computed solely from origins having at least one
open event in the current long window; an origin present only through
persisted leaderboard entries appears in the display union (the
connection-info series) and contributes its duration to the global
max/mean inputs, but is absent from connections_per_ip, hence from
unique_ips and from the per-country sums, which range over
connections_per_ip only. -/
theorem c10_rollups_from_open_events_only
    (api : String → Option ApiResponse) (now : Nat) (st : PassState)
    (w : Window) (sh : List OpenEvent)
    (hnd : (dictKeys st.hall_of_fame).Nodup) :
    (∀ ip : String,
      ip ∈ dictKeys
          ((parse_endlessh_logs api now st w sh).2.connections_per_ip) ↔
        ip ∈ w.opens.map (fun e => e.ip)) ∧
    (uniqueIps ((parse_endlessh_logs api now st w sh).2.connections_per_ip) =
      (w.opens.map (fun e => e.ip)).toFinset.card) ∧
    (∀ ctry : String,
      (dictGet? (connectionsPerCountry
          ((parse_endlessh_logs api now st w sh).1.ip_locations)
          ((parse_endlessh_logs api now st w sh).2.connections_per_ip))
          ctry).getD 0 =
        ((((parse_endlessh_logs api now st w sh).2.connections_per_ip).filter
          (fun p => countryOf
            ((parse_endlessh_logs api now st w sh).1.ip_locations) p.1 =
            ctry)).map (fun p => p.2)).sum) ∧
    (∀ (k : String) (c : Conn),
      dictGet? ((parse_endlessh_logs api now st w sh).1.hall_of_fame) k =
        some c →
      c.ip ∉ w.opens.map (fun e => e.ip) →
      dictGet? ((parse_endlessh_logs api now st w sh).2.connections_per_ip)
          c.ip = none ∧
      dictGet? ((parse_endlessh_logs api now st w sh).2.display) k =
        some c ∧
      c.duration ∈ (parse_endlessh_logs api now st w sh).2.all_durations ∧
      c.duration ≤
        (parse_endlessh_logs api now st w sh).2.max_trap_duration) := by
  have hperip : (parse_endlessh_logs api now st w sh).2.connections_per_ip =
      openFoldPerIp [] w.opens := by
    rw [parse_perIp_eq]
    exact (openFold_spec now (w.closes.map (fun c => c.port)) api w.opens
      (lookupGeo api st.ip_locations) ([], [], st.ip_locations)
      (fun i => rfl)).2.1
  have hmemiff : ∀ ip : String,
      ip ∈ dictKeys
        ((parse_endlessh_logs api now st w sh).2.connections_per_ip) ↔
        ip ∈ w.opens.map (fun e => e.ip) := by
    intro ip
    rw [hperip, openFoldPerIp_mem w.opens [] ip]
    constructor
    · rintro (h | h)
      · exact absurd h (List.not_mem_nil ip)
      · exact h
    · exact Or.inr
  refine ⟨hmemiff, ?_, ?_, ?_⟩
  · show ((parse_endlessh_logs api now st w sh).2.connections_per_ip).length
      = _
    rw [nodup_keys_toFinset_card (by
      rw [hperip]
      exact openFoldPerIp_nodup w.opens [] List.nodup_nil)]
    congr 1
    ext ip
    rw [List.mem_toFinset, List.mem_toFinset]
    exact hmemiff ip
  · intro ctry
    exact connectionsPerCountry_spec _ _ ctry
  · intro k c hget hip
    have hmem : (k, c) ∈
        (parse_endlessh_logs api now st w sh).1.hall_of_fame :=
      mem_of_dictGet? hget
    have hhnd := parse_hall_keys_nodup api now st w sh hnd
    have hdisp : dictGet?
        ((parse_endlessh_logs api now st w sh).2.display) k = some c := by
      rw [parse_display_eq]
      exact foldl_dictInsert_get _ _ k c hhnd hmem
    have hdurmem : c.duration ∈
        (parse_endlessh_logs api now st w sh).2.all_durations := by
      rw [parse_durs_eq]
      exact List.mem_map.mpr ⟨(k, c), mem_of_dictGet? hdisp, rfl⟩
    refine ⟨?_, hdisp, hdurmem, ?_⟩
    · rw [dictGet?_eq_none_iff]
      intro hin
      exact hip ((hmemiff c.ip).mp hin)
    · rw [parse_max_eq]
      exact mem_le_listMax _ c.duration hdurmem

/-- Fixture for C10: a persisted entry for an origin with no open event
in the window. -/
def hallOnlyConn : Conn :=
  { ip := "7.7.7.7", port := 9, fd := 9, country := "Unknown",
    city := "Unknown", country_code := "XX", started := 1,
    duration := 42, status := "released" }

/-- Fixture for C10: state whose leaderboard holds only the hall-only
origin. -/
def c10State : PassState :=
  { hall_of_fame := [("7.7.7.7:9", hallOnlyConn)], ip_locations := [],
    counter := { total := 0, seen := ∅ } }

/-- C10 witness: with one open event from 8.8.8.8 and a persisted entry
for 7.7.7.7, the per-origin rollup lacks 7.7.7.7, which still appears in
the display union with its duration bounded by the displayed maximum. -/
theorem c10_rollups_witness :
    (dictKeys c10State.hall_of_fame).Nodup ∧
    (dictGet? (parse_endlessh_logs noApi 1000 c10State c9Window
      []).1.hall_of_fame "7.7.7.7:9" = some hallOnlyConn) ∧
    ("7.7.7.7" ∉ c9Window.opens.map (fun e => e.ip)) ∧
    dictGet? ((parse_endlessh_logs noApi 1000 c10State c9Window
      []).2.connections_per_ip) "7.7.7.7" = none ∧
    dictGet? ((parse_endlessh_logs noApi 1000 c10State c9Window
      []).2.display) "7.7.7.7:9" = some hallOnlyConn := by
  have h1 : (dictKeys c10State.hall_of_fame).Nodup := by decide
  have h2 : dictGet? (parse_endlessh_logs noApi 1000 c10State c9Window
      []).1.hall_of_fame "7.7.7.7:9" = some hallOnlyConn := by decide
  have h3 : "7.7.7.7" ∉ c9Window.opens.map (fun e => e.ip) := by decide
  have hmain := (c10_rollups_from_open_events_only noApi 1000 c10State
    c9Window [] h1).2.2.2 "7.7.7.7:9" hallOnlyConn h2 h3
  exact ⟨h1, h2, h3, hmain.1, hmain.2.1⟩

end Endlessh
